import Mathlib

/-!
Verification development for the Högskoleprovet extraction engine
(`scripts/parse_hogskoleprovet.py`) and the override-merge step of
`scripts/pipeline.py`.

The Python source is shallowly embedded: strings are processed as `List Char`,
the regular expressions of the source are translated into explicit scanner
functions (each scanner's doc comment quotes the regex it models, and the
translation follows the regex engine's greedy/backtracking behaviour at the
points where it is observable), dictionaries become association lists that
keep insertion order, and JSON records become structures.

Python's `\s` class and `str.strip()` act on Unicode whitespace; this
development models the whitespace characters that can actually occur in the
corpus (space, tab, newline, carriage return, vertical tab, form feed).
Likewise `\w` and `str.upper()` are modelled on the character repertoire used
by the source (ASCII plus the Swedish, Cyrillic and Greek letters appearing
in the tables of the module).
-/

namespace Hogskoleprovet

/-- Python whitespace (`\s`, `str.strip`) restricted to the characters of the
corpus: space, tab, LF, CR, vertical tab, form feed. -/
def isPySpace (c : Char) : Bool :=
  c = ' ' || c = '\t' || c = '\n' || c = '\r' || c = '\x0b' || c = '\x0c'

/-- `str.strip()` on a character list: drop leading and trailing whitespace. -/
def pyStripList (l : List Char) : List Char :=
  ((l.dropWhile isPySpace).reverse.dropWhile isPySpace).reverse

/-- `str.strip()` on a `String`. -/
def pyStrip (s : String) : String :=
  (pyStripList s.toList).asString

/-- ASCII digit test (`\d` in the source's regexes; the corpus is ASCII-numeric). -/
def isPyDigit (c : Char) : Bool :=
  '0' ≤ c && c ≤ '9'

/-- Python `\w` (word character) on the repertoire of the corpus: ASCII
alphanumerics, underscore, Swedish letters, and the Cyrillic/Greek letters
from the module's lookalike tables. -/
def isPyWordChar (c : Char) : Bool :=
  c.isAlphanum || c = '_' ||
  c = 'å' || c = 'ä' || c = 'ö' || c = 'Å' || c = 'Ä' || c = 'Ö' ||
  c = 'А' || c = 'Б' || c = 'В' || c = 'С' || c = 'Д' || c = 'Е' ||
  c = 'а' || c = 'с' || c = 'е' || c = 'Α' || c = 'Β' || c = 'Ε'

/-- `str.upper()` on the repertoire of the corpus (ASCII plus Swedish
lowercase letters; other characters pass through unchanged). -/
def pyUpperChar (c : Char) : Char :=
  if c = 'å' then 'Å' else if c = 'ä' then 'Ä' else if c = 'ö' then 'Ö'
  else c.toUpper

/-- `str.upper()` on a string, characterwise. -/
def pyUpper (s : String) : String :=
  (s.toList.map pyUpperChar).asString

/-- Decimal digits to a natural number (`int(...)` on a digit string). -/
def digitsToNat (l : List Char) : Nat :=
  l.foldl (fun acc c => 10 * acc + (c.toNat - '0'.toNat)) 0

/-- Literal match: if `pat` is a prefix of `l`, return the rest of `l`. -/
def matchLit : List Char → List Char → Option (List Char)
  | [], l => some l
  | _ :: _, [] => none
  | p :: ps, c :: cs => if c = p then matchLit ps cs else none

/-- Does `pat` occur as a contiguous substring of `l`?  (`re.search` on a
literal pattern / Python's `in` operator.) -/
def hasSubstr (pat : List Char) : List Char → Bool
  | [] => (matchLit pat []).isSome
  | c :: cs => (matchLit pat (c :: cs)).isSome || hasSubstr pat cs

/-- Python substring test `pat in s` for strings. -/
def strContains (s pat : String) : Bool :=
  hasSubstr pat.toList s.toList

/-! ### `normalize_letter` -/

/-- `normalize_letter`: the fixed lookalike table, as the source's dict
literal (Cyrillic А а Б В С с Д Е е, Greek Α Β Ε), then
`mapping.get(letter, letter)`. -/
def normalizeLetter (c : Char) : Char :=
  if c = 'А' then 'A' else if c = 'а' then 'A'
  else if c = 'Б' then 'B'
  else if c = 'В' then 'B'
  else if c = 'С' then 'C' else if c = 'с' then 'C'
  else if c = 'Д' then 'D'
  else if c = 'Е' then 'E' else if c = 'е' then 'E'
  else if c = 'Α' then 'A'
  else if c = 'Β' then 'B'
  else if c = 'Ε' then 'E'
  else c

/-- The keys of `normalize_letter`'s lookup table. -/
def normalizeTableKeys : List Char :=
  ['А', 'а', 'Б', 'В', 'С', 'с', 'Д', 'Е', 'е', 'Α', 'Β', 'Ε']

/-- The character class `OPTION_LETTER_CHARS = r'A-EАБВСДЕΑΒΕ'` used by every
option strategy: the Latin range A–E plus uppercase Cyrillic АБВСДЕ and
uppercase Greek ΑΒΕ. -/
def isOptionLetterChar (c : Char) : Bool :=
  ('A' ≤ c && c ≤ 'E') ||
  c = 'А' || c = 'Б' || c = 'В' || c = 'С' || c = 'Д' || c = 'Е' ||
  c = 'Α' || c = 'Β' || c = 'Ε'

/-! ### Section tables -/

structure SectionInfo where
  name : String
  options : String
  deriving Repr, DecidableEq

/-- `SECTIONS_KVANT` (insertion-ordered dict as an association list). -/
def SECTIONS_KVANT : List (String × SectionInfo) :=
  [("XYZ", ⟨"Matematisk problemlösning", "ABCD"⟩),
   ("KVA", ⟨"Kvantitativa jämförelser", "ABCD"⟩),
   ("NOG", ⟨"Kvantitativa resonemang", "ABCDE"⟩),
   ("DTK", ⟨"Diagram, tabeller och kartor", "ABCD"⟩)]

/-- `SECTIONS_VERBAL`. -/
def SECTIONS_VERBAL : List (String × SectionInfo) :=
  [("ORD", ⟨"Ordförståelse", "ABCDE"⟩),
   ("LÄS", ⟨"Läsförståelse", "ABCD"⟩),
   ("MEK", ⟨"Meningskomplettering", "ABCD"⟩)]

/-- `SECTIONS = {**SECTIONS_KVANT, **SECTIONS_VERBAL}` (key sets are disjoint,
so the merged dict is the concatenation in insertion order). -/
def SECTIONS : List (String × SectionInfo) :=
  SECTIONS_KVANT ++ SECTIONS_VERBAL

/-- Dict lookup on an association list (`d.get(k)` / `k in d`). -/
def dictGet (d : List (String × SectionInfo)) (k : String) : Option SectionInfo :=
  (d.find? (fun p => p.1 = k)).map (·.2)

/-- `SECTIONS.get(section, {}).get("options", "ABCD")`: the expected option
alphabet of a section code. -/
def expectedLetters (sec : String) : String :=
  match dictGet SECTIONS sec with
  | some info => info.options
  | none => "ABCD"

/-- `SECTIONS.get(section, {}).get("name", "Unknown")`. -/
def sectionDisplayName (sec : String) : String :=
  match dictGet SECTIONS sec with
  | some info => info.name
  | none => "Unknown"

/-! ### `determine_section` and `parse_section_ranges` -/

/-- Range dicts keep Python dict insertion order; `determine_section` scans
them in that order.  Updating an existing key keeps its position (dict keys
are unique, so replacing the first occurrence is dict assignment), a new key
is appended. -/
def rangesSet : List (String × (Nat × Nat)) → String → (Nat × Nat) →
    List (String × (Nat × Nat))
  | [], k, v => [(k, v)]
  | p :: ps, k, v => if p.1 = k then (k, v) :: ps else p :: rangesSet ps k v

/-- Lookup in a range dict. -/
def rangesGet (d : List (String × (Nat × Nat))) (k : String) : Option (Nat × Nat) :=
  (d.find? (fun p => p.1 = k)).map (·.2)

/-- `determine_section`: first range (in insertion order) containing the
question number wins; otherwise the `"UNKNOWN"` sentinel. -/
def determineSection (questionNum : Nat) (sectionRanges : List (String × (Nat × Nat))) :
    String :=
  match sectionRanges.find? (fun p => p.2.1 ≤ questionNum && questionNum ≤ p.2.2) with
  | some p => p.1
  | none => "UNKNOWN"

/-- Default verbal range table of `parse_section_ranges`. -/
def verbalDefaultRanges : List (String × (Nat × Nat)) :=
  [("ORD", (1, 10)), ("LÄS", (11, 30)), ("MEK", (31, 40))]

/-- Default kvantitativ range table of `parse_section_ranges`. -/
def kvantDefaultRanges : List (String × (Nat × Nat)) :=
  [("XYZ", (1, 12)), ("KVA", (13, 22)), ("NOG", (23, 28)), ("DTK", (29, 40))]

/-- One attempted match of the table-row regex
`\|\s*(\w+)\s*\|\s*(\d+)\s*\|\s*(\d+)\s*[–-]\s*(\d+)\s*\|`
at the current position.  The regex is deterministic here: every greedy
run (`\w+`, `\d+`, `\s*`) is followed by a character disjoint from the run's
class, so no backtracking can change the outcome.  Returns
(group1, group3 as Nat, group4 as Nat, unconsumed rest). -/
def tryTableRow (l : List Char) : Option (String × Nat × Nat × List Char) := do
  let l ← matchLit ['|'] l
  let l := l.dropWhile isPySpace
  let code := l.takeWhile isPyWordChar
  if code.isEmpty then none else
  let l := l.dropWhile isPyWordChar
  let l := l.dropWhile isPySpace
  let l ← matchLit ['|'] l
  let l := l.dropWhile isPySpace
  let num2 := l.takeWhile isPyDigit
  if num2.isEmpty then none else
  let l := l.dropWhile isPyDigit
  let l := l.dropWhile isPySpace
  let l ← matchLit ['|'] l
  let l := l.dropWhile isPySpace
  let start := l.takeWhile isPyDigit
  if start.isEmpty then none else
  let l := l.dropWhile isPyDigit
  let l := l.dropWhile isPySpace
  let l ← match l with
          | c :: rest => if c = '–' || c = '-' then some rest else none
          | [] => none
  let l := l.dropWhile isPySpace
  let stop := l.takeWhile isPyDigit
  if stop.isEmpty then none else
  let l := l.dropWhile isPyDigit
  let l := l.dropWhile isPySpace
  let l ← matchLit ['|'] l
  some (code.asString, digitsToNat start, digitsToNat stop, l)

/-- `re.finditer` of the table-row pattern: leftmost, non-overlapping matches.
The consumed count of a match is recovered from the length of the rest; the
fuel (initially the text length) bounds the recursion and every step consumes
at least one character, so it never runs out before the scan ends. -/
def tableRowsAux : Nat → List Char → List (String × Nat × Nat)
  | 0, _ => []
  | _ + 1, [] => []
  | fuel + 1, c :: cs =>
    match tryTableRow (c :: cs) with
    | some (code, s, e, rest) =>
      (code, s, e) :: tableRowsAux fuel rest
    | none => tableRowsAux fuel cs

/-- All matches of the table-row pattern in the document, in order. -/
def tableRows (mdText : String) : List (String × Nat × Nat) :=
  tableRowsAux mdText.toList.length mdText.toList

/-- The loop body of `parse_section_ranges`: a row whose upper-cased code is
in `SECTIONS` (the combined table) overwrites that code's range; any other
row is discarded. -/
def applyRangeRow (r : List (String × (Nat × Nat))) (row : String × Nat × Nat) :
    List (String × (Nat × Nat)) :=
  let code := pyUpper row.1
  if (dictGet SECTIONS code).isSome then rangesSet r code (row.2.1, row.2.2) else r

/-- `parse_section_ranges`: start from the default table selected by
`provpass_type` (`"verbal"` picks the verbal table, anything else the
kvantitativ table), then for every table-row match whose upper-cased code is
in `SECTIONS`, overwrite that code's range (later rows win). -/
def parseSectionRanges (mdText : String) (provpassType : String) :
    List (String × (Nat × Nat)) :=
  let base := if provpassType = "verbal" then verbalDefaultRanges else kvantDefaultRanges
  (tableRows mdText).foldl applyRangeRow base

/-! ### `clean_option_text` -/

/-- `re.sub(r'^[-*]\s+', '', text)`: strip one leading list marker, only when
it is followed by at least one whitespace character (the whole whitespace run
is removed with it). -/
def stripListMarker (l : List Char) : List Char :=
  match l with
  | c :: c2 :: rest =>
    if (c = '-' || c = '*') && isPySpace c2 then (c2 :: rest).dropWhile isPySpace
    else l
  | _ => l

/-- `re.sub(r'<sup>([^<]+)</sup>', r'^\1', text)`: replace every
`<sup>x</sup>` wrapper (`x` nonempty, without `<`) by `^x`, scanning left to
right, non-overlapping. -/
def convertSup : Nat → List Char → List Char
  | 0, l => l
  | _ + 1, [] => []
  | fuel + 1, c :: cs =>
    match matchLit ['<', 's', 'u', 'p', '>'] (c :: cs) with
    | some rest =>
      let content := rest.takeWhile (fun x => x ≠ '<')
      match content, matchLit ['<', '/', 's', 'u', 'p', '>'] (rest.drop content.length) with
      | _ :: _, some rest2 => '^' :: content ++ convertSup fuel rest2
      | _, _ => c :: convertSup fuel cs
    | none => c :: convertSup fuel cs

/-- `clean_option_text` on the character list: strip whitespace, strip a
leading list marker that is followed by whitespace (a minus sign directly
before a digit is kept), then convert `<sup>x</sup>` wrappers to `^x`. -/
def cleanOptionTextList (l : List Char) : List Char :=
  let l := pyStripList l
  let l := stripListMarker l
  convertSup l.length l

/-- `clean_option_text`. -/
def cleanOptionText (text : String) : String :=
  (cleanOptionTextList text.toList).asString

/-! ### Shared scanning machinery for the option strategies -/

/-- Generic `re.finditer`: try a match at every position from left to right,
skipping over the characters of each successful match (non-overlapping).
The Bool state models the anchor information a strategy needs (line start for
`re.MULTILINE` `^`, string start for `(?:^|\n)`); `upd` advances it over each
consumed character.  Fuel (initially text length + 1) bounds the recursion;
every strategy consumes at least one character per match. -/
def reFinditer {α : Type} (tryM : Bool → List Char → Option (α × List Char))
    (upd : Bool → Char → Bool) : Nat → Bool → List Char → List α
  | 0, _, _ => []
  | _ + 1, _, [] => []
  | fuel + 1, st, c :: cs =>
    match tryM st (c :: cs) with
    | some (cand, rest) =>
      let consumed := max ((c :: cs).length - rest.length) 1
      cand :: reFinditer tryM upd fuel (((c :: cs).take consumed).foldl upd st)
        ((c :: cs).drop consumed)
    | none => reFinditer tryM upd fuel (upd st c) cs

/-- Consume `(?:\*\*)?`: a literal `**` if present.  If `**` is present but
the continuation fails, not consuming it cannot succeed either (the next
character would be `*`, which is neither an option letter nor whitespace),
so consuming greedily is faithful. -/
def skipStars : List Char → List Char
  | '*' :: '*' :: rest => rest
  | l => l

/-- Consume one character of the option-letter class
(`([A-EАБВСДЕΑΒΕ])` — the single capture group of strategies 1–6). -/
def takeLetter : List Char → Option (Char × List Char)
  | c :: rest => if isOptionLetterChar c then some (c, rest) else none
  | [] => none

/-- Consume `[-*]`: a list marker. -/
def headMarker : List Char → Option (List Char)
  | c :: rest => if c = '-' || c = '*' then some rest else none
  | [] => none

/-- The tail `\s+(.+?)$` of strategies 1 and 2 (with `re.MULTILINE`, without
`re.DOTALL`): a greedy whitespace run, then the lazy group expands until `$`
(end of text or just before a newline).  If the whitespace run reaches a
non-newline character, the group is the rest of that line.  If the run
reaches the end of the text, the engine backtracks `\s+` to the last
position whose character is not a newline (keeping at least one whitespace
character consumed) and the group is the remaining whitespace of that line.
Returns (group, rest after the match). -/
def matchTail (l : List Char) : Option (List Char × List Char) :=
  let ws := l.takeWhile isPySpace
  if ws.isEmpty then none
  else
    match l.drop ws.length with
    | c :: cs =>
      let content := (c :: cs).takeWhile (fun x => x ≠ '\n')
      some (content, (c :: cs).drop content.length)
    | [] =>
      match ((List.range ws.length).filter
          (fun k => decide (1 ≤ k) && decide (ws.getD k '\n' ≠ '\n'))).getLast? with
      | some k =>
        let content := (l.drop k).takeWhile (fun x => x ≠ '\n')
        some (content, (l.drop k).drop content.length)
      | none => none

/-- Split at the first occurrence of a literal: `(.*?)pat` with `re.DOTALL`.
Returns (lazy group, rest after the literal); `none` if the literal does not
occur. -/
def splitAtFirst (pat : List Char) : List Char → Option (List Char × List Char)
  | [] => (matchLit pat []).map (fun r => (([] : List Char), r))
  | c :: cs =>
    match matchLit pat (c :: cs) with
    | some rest => some ([], rest)
    | none => (splitAtFirst pat cs).map (fun pr => (c :: pr.1, pr.2))

/-! ### The six option strategies of `parse_options_from_block` -/

/-- Strategy 1, `^\s*[-*]\s*(?:\*\*)?([L])(?:\*\*)?\s+(.+?)$` (MULTILINE):
list-marker-prefixed letter plus text.  The Bool is the `^` anchor (line
start). -/
def tryListOption (atLineStart : Bool) (l : List Char) :
    Option ((Char × String) × List Char) := do
  guard atLineStart
  let l := l.dropWhile isPySpace
  let l ← headMarker l
  let l := l.dropWhile isPySpace
  let l := skipStars l
  let (c, l) ← takeLetter l
  let l := skipStars l
  let (content, rest) ← matchTail l
  pure ((c, content.asString), rest)

/-- Strategy 2, `^(?:\*\*)?([L])(?:\*\*)?\s+(.+?)$` (MULTILINE): bare letter
plus text at line start. -/
def tryBareOption (atLineStart : Bool) (l : List Char) :
    Option ((Char × String) × List Char) := do
  guard atLineStart
  let l := skipStars l
  let (c, l) ← takeLetter l
  let l := skipStars l
  let (content, rest) ← matchTail l
  pure ((c, content.asString), rest)

/-- Body of strategy 3 after the `(?:^|\n)` prefix:
`\s*([L])\s*\n\s*\$\$(.*?)\$\$` (DOTALL).  `\s*\n\s*` matches exactly the
whitespace runs that contain a newline (greedily, the whole run). -/
def tryMathBlockBody (l : List Char) : Option ((Char × String) × List Char) := do
  let l := l.dropWhile isPySpace
  let (c, l) ← takeLetter l
  let ws := l.takeWhile isPySpace
  guard (ws.contains '\n')
  let l ← matchLit ['$', '$'] (l.drop ws.length)
  let (content, rest) ← splitAtFirst ['$', '$'] l
  pure ((c, content.asString), rest)

/-- Strategy 3, `(?:^|\n)\s*([L])\s*\n\s*\$\$(.*?)\$\$` (DOTALL): letter on
its own line followed by a `$$...$$` math block.  The Bool is true only at
position 0 (`^` without MULTILINE); elsewhere the match must consume a
newline.  (At position 0 on a text starting with a newline both alternatives
of `(?:^|\n)` reach the same match, since `\s*` absorbs the newline.) -/
def tryMathBlock (atStringStart : Bool) (l : List Char) :
    Option ((Char × String) × List Char) :=
  if atStringStart then tryMathBlockBody l
  else
    match l with
    | '\n' :: rest => tryMathBlockBody rest
    | _ => none

/-- Strategy 4, `\$\$\s*([L])\s+\\qquad\s+(.*?)\$\$` (no DOTALL): letter
inside a math block before a `\qquad` spacing marker.  The lazy group cannot
cross a newline; if the first `$$` after it lies beyond a newline the match
fails (backtracking into the whitespace run cannot help, since the newline
would then fall inside the group). -/
def tryInlineMath (_ : Bool) (l : List Char) :
    Option ((Char × String) × List Char) := do
  let l ← matchLit ['$', '$'] l
  let l := l.dropWhile isPySpace
  let (c, l) ← takeLetter l
  let ws := l.takeWhile isPySpace
  guard (!ws.isEmpty)
  let l ← matchLit ['\\', 'q', 'q', 'u', 'a', 'd'] (l.drop ws.length)
  let ws2 := l.takeWhile isPySpace
  guard (!ws2.isEmpty)
  let (content, rest) ← splitAtFirst ['$', '$'] (l.drop ws2.length)
  guard (!content.contains '\n')
  pure ((c, content.asString), rest)

/-- Body of strategy 5 after the `(?:^|\n)` prefix:
`\s*([L])\s*\n+\s*(!\[.*?\]\(.*?\))` (DOTALL).  `\s*\n+\s*` matches exactly
the whitespace runs that contain a newline. -/
def tryImageOptionBody (l : List Char) : Option ((Char × String) × List Char) := do
  let l := l.dropWhile isPySpace
  let (c, l) ← takeLetter l
  let ws := l.takeWhile isPySpace
  guard (ws.contains '\n')
  let l ← matchLit ['!', '['] (l.drop ws.length)
  let (alt, l) ← splitAtFirst [']'] l
  let l ← matchLit ['('] l
  let (fn, rest) ← splitAtFirst [')'] l
  pure ((c, "![" ++ alt.asString ++ "](" ++ fn.asString ++ ")"), rest)

/-- Strategy 5, `(?:^|\n)\s*([L])\s*\n+\s*(!\[.*?\]\(.*?\))` (DOTALL): letter
on its own line followed by an inline image reference. -/
def tryImageOption (atStringStart : Bool) (l : List Char) :
    Option ((Char × String) × List Char) :=
  if atStringStart then tryImageOptionBody l
  else
    match l with
    | '\n' :: rest => tryImageOptionBody rest
    | _ => none

/-- Strategy 6, `<sup>([L])</sup>\s*<sup>(\d+)</sup>\s*(\d+)`: a garbled
doubled-superscript pattern; the option text is rebuilt as
`f"{numer}/{denom}"`. -/
def trySupOption (_ : Bool) (l : List Char) :
    Option ((Char × String) × List Char) := do
  let l ← matchLit ['<', 's', 'u', 'p', '>'] l
  let (c, l) ← takeLetter l
  let l ← matchLit ['<', '/', 's', 'u', 'p', '>'] l
  let l := l.dropWhile isPySpace
  let l ← matchLit ['<', 's', 'u', 'p', '>'] l
  let denom := l.takeWhile isPyDigit
  guard (!denom.isEmpty)
  let l ← matchLit ['<', '/', 's', 'u', 'p', '>'] (l.drop denom.length)
  let l := l.dropWhile isPySpace
  let numer := l.takeWhile isPyDigit
  guard (!numer.isEmpty)
  pure ((c, numer.asString ++ "/" ++ denom.asString), l.drop numer.length)

/-- `finditer` over strategy 1; the anchor state tracks line starts. -/
def listOptionMatches (l : List Char) : List (Char × String) :=
  reFinditer tryListOption (fun _ c => c = '\n') (l.length + 1) true l

/-- `finditer` over strategy 2. -/
def bareOptionMatches (l : List Char) : List (Char × String) :=
  reFinditer tryBareOption (fun _ c => c = '\n') (l.length + 1) true l

/-- `finditer` over strategy 3; the anchor state is string start only. -/
def mathBlockMatches (l : List Char) : List (Char × String) :=
  reFinditer tryMathBlock (fun _ _ => false) (l.length + 1) true l

/-- `finditer` over strategy 4 (no anchors). -/
def inlineMathMatches (l : List Char) : List (Char × String) :=
  reFinditer tryInlineMath (fun _ _ => false) (l.length + 1) true l

/-- `finditer` over strategy 5. -/
def imageOptionMatches (l : List Char) : List (Char × String) :=
  reFinditer tryImageOption (fun _ _ => false) (l.length + 1) true l

/-- `finditer` over strategy 6. -/
def supOptionMatches (l : List Char) : List (Char × String) :=
  reFinditer trySupOption (fun _ _ => false) (l.length + 1) true l

/-! ### `parse_options_from_block` -/

/-- One answer option: canonical letter plus cleaned display text. -/
structure OptionRec where
  letter : Char
  text : String
  deriving Repr, DecidableEq

/-- The mutable state of `parse_options_from_block`: the `found_letters` set
(kept as a list; only membership is used) and the accumulated `options`. -/
structure OptState where
  foundLetters : List Char
  options : List OptionRec
  deriving Repr, DecidableEq

/-- `add_option`: normalize the letter, silently reject it if already
recorded or outside the expected alphabet, otherwise record the option with
cleaned text. -/
def addOption (expected : String) (st : OptState) (letter : Char) (text : String) :
    OptState :=
  let l := normalizeLetter letter
  if st.foundLetters.contains l || !(expected.toList.contains l) then st
  else
    { foundLetters := st.foundLetters ++ [l],
      options := st.options ++ [⟨l, cleanOptionText text⟩] }

/-- `letter_order = {l: i for i, l in enumerate("ABCDE")}` with
`letter_order.get(letter, 99)`. -/
def letterOrderKey (c : Char) : Nat :=
  if c = 'A' then 0 else if c = 'B' then 1 else if c = 'C' then 2
  else if c = 'D' then 3 else if c = 'E' then 4 else 99

/-- Stable insertion into a list sorted by `letterOrderKey`. -/
def insertByLetter (x : OptionRec) : List OptionRec → List OptionRec
  | [] => [x]
  | y :: ys =>
    if letterOrderKey y.letter ≤ letterOrderKey x.letter then y :: insertByLetter x ys
    else x :: y :: ys

/-- `options.sort(key=...)`: a stable sort by `letterOrderKey` (the recorded
letters are pairwise distinct, so every sort consistent with the key yields
Python's result). -/
def sortByLetter (l : List OptionRec) : List OptionRec :=
  l.foldl (fun acc x => insertByLetter x acc) []

/-- The skip guard of strategy 2: lines whose text contains known
section-header vocabulary are not options. -/
def containsSkipWord (t : String) : Bool :=
  strContains t "problemlösning" || strContains t "jämförelser" ||
  strContains t "resonemang"

/-- The option-accumulation phase of `parse_options_from_block`: apply the
six strategies in priority order (strategies 2–6 only while the
discovered-letter count is short of the expected count), feeding every
candidate through `add_option`. -/
def optionExtractionState (blockText : String) (sec : String) : OptState :=
  let expected := expectedLetters sec
  let l := blockText.toList
  let st := (listOptionMatches l).foldl
    (fun st cand => addOption expected st cand.1 (pyStrip cand.2)) ⟨[], []⟩
  let st := if st.foundLetters.length < expected.length then
      (bareOptionMatches l).foldl
        (fun st cand =>
          let text := pyStrip cand.2
          if containsSkipWord text then st else addOption expected st cand.1 text) st
    else st
  let st := if st.foundLetters.length < expected.length then
      (mathBlockMatches l).foldl
        (fun st cand => addOption expected st cand.1 (pyStrip cand.2)) st
    else st
  let st := if st.foundLetters.length < expected.length then
      (inlineMathMatches l).foldl
        (fun st cand => addOption expected st cand.1 (pyStrip cand.2)) st
    else st
  let st := if st.foundLetters.length < expected.length then
      (imageOptionMatches l).foldl
        (fun st cand => addOption expected st cand.1 (pyStrip cand.2)) st
    else st
  let st := if st.foundLetters.length < expected.length then
      (supOptionMatches l).foldl
        (fun st cand => addOption expected st cand.1 cand.2) st
    else st
  st

/-- `parse_options_from_block`: the accumulated options, sorted into
canonical letter order. -/
def parseOptionsFromBlock (blockText : String) (sec : String) : List OptionRec :=
  sortByLetter (optionExtractionState blockText sec).options

/-! ### `extract_images` -/

/-- One inline image reference. -/
structure ImageRec where
  alt_text : String
  filename : String
  deriving Repr, DecidableEq

/-- One match of `!\[([^\]]*)\]\(([^)]+)\)`: alt text (no `]`, possibly
empty), filename (no `)`, nonempty). -/
def tryImageRef (l : List Char) : Option (ImageRec × List Char) := do
  let l ← matchLit ['!', '['] l
  let alt := l.takeWhile (fun c => c ≠ ']')
  let l ← matchLit [']', '('] (l.drop alt.length)
  let fn := l.takeWhile (fun c => c ≠ ')')
  guard (!fn.isEmpty)
  let l ← matchLit [')'] (l.drop fn.length)
  pure (⟨alt.asString, fn.asString⟩, l)

/-- `extract_images`: all image references in order. -/
def extractImages (text : String) : List ImageRec :=
  reFinditer (fun _ l => tryImageRef l) (fun _ _ => false)
    (text.toList.length + 1) true text.toList

/-! ### The question-number label pattern

`^(?:[-*]\s*)?(?:#{1,4}\s*)?(?:\*\*)?(\d{1,2})\.(?:\*\*)?` followed by `\s`
(`split_into_questions`, MULTILINE) or `\s*` (`extract_question_text`).
The three optional groups and the 1-or-2-digit count backtrack; the
alternatives are tried in the regex engine's order (with the optional part
first, longer digit count first). -/

/-- First success of `f` over an ordered list of backtracking alternatives. -/
def firstSome {α β : Type} (f : α → Option β) : List α → Option β
  | [] => none
  | x :: xs => match f x with | some r => some r | none => firstSome f xs

/-- Alternatives of `(?:[-*]\s*)?`: with the marker (and its whitespace run)
first, then without. -/
def markerAlts (l : List Char) : List (List Char) :=
  match headMarker l with
  | some r => [r.dropWhile isPySpace, l]
  | none => [l]

/-- Alternatives of `(?:#{1,4}\s*)?`: consuming k `#`s (k from
`min run 4` down to 1) plus trailing whitespace, then the skip
alternative. -/
def headingAlts (l : List Char) : List (List Char) :=
  match l with
  | '#' :: _ =>
    let run := (l.takeWhile (fun c => c = '#')).length
    ((List.range' 1 (min run 4)).reverse.map
      (fun k => (l.drop k).dropWhile isPySpace)) ++ [l]
  | _ => [l]

/-- Alternatives of `(?:\*\*)?`: with first, then without. -/
def starAlts (l : List Char) : List (List Char) :=
  match l with
  | '*' :: '*' :: r => [r, l]
  | _ => [l]

/-- Alternatives of `(\d{1,2})`: two digits first, then one; paired with the
numeric value of the digits consumed. -/
def digitAlts (l : List Char) : List (Nat × List Char) :=
  match l with
  | c1 :: c2 :: r =>
    if isPyDigit c1 then
      if isPyDigit c2 then
        [(10 * (c1.toNat - '0'.toNat) + (c2.toNat - '0'.toNat), r),
         (c1.toNat - '0'.toNat, c2 :: r)]
      else [(c1.toNat - '0'.toNat, c2 :: r)]
    else []
  | [c1] => if isPyDigit c1 then [(c1.toNat - '0'.toNat, [])] else []
  | [] => []

/-- Match the question-number label at the current position.  With
`requireWs` the label must be followed by one whitespace character (the
splitter's `\s`); without, a trailing whitespace run is consumed (the
`\s*` of `extract_question_text`).  Returns (question number, rest). -/
def tryQLabel (requireWs : Bool) (l : List Char) : Option (Nat × List Char) :=
  firstSome (fun l1 =>
    firstSome (fun l2 =>
      firstSome (fun l3 =>
        firstSome (fun dn =>
          match dn.2 with
          | '.' :: r =>
            firstSome (fun l5 =>
              if requireWs then
                match l5 with
                | c :: r2 => if isPySpace c then some (dn.1, r2) else none
                | [] => none
              else some (dn.1, l5.dropWhile isPySpace))
              (starAlts r)
          | _ => none)
          (digitAlts l3))
        (starAlts l2))
      (headingAlts l1))
    (markerAlts l)

/-! ### `split_into_questions` -/

/-- `finditer` of the question-label pattern with absolute start positions:
(start index, question number) for every line-start match, leftmost and
non-overlapping. -/
def questionLabelScanAux : Nat → Nat → Bool → List Char → List (Nat × Nat)
  | 0, _, _, _ => []
  | _ + 1, _, _, [] => []
  | fuel + 1, idx, atLS, c :: cs =>
    if atLS then
      match tryQLabel true (c :: cs) with
      | some (n, rest) =>
        let consumed := max ((c :: cs).length - rest.length) 1
        (idx, n) :: questionLabelScanAux fuel (idx + consumed)
          (((c :: cs).take consumed).foldl (fun _ ch => ch = '\n') atLS)
          ((c :: cs).drop consumed)
      | none => questionLabelScanAux fuel (idx + 1) (c = '\n') cs
    else questionLabelScanAux fuel (idx + 1) (c = '\n') cs

/-- All label matches of a document. -/
def questionLabelScan (mdText : String) : List (Nat × Nat) :=
  questionLabelScanAux (mdText.toList.length + 1) 0 true mdText.toList

/-- `split_into_questions`: one `(question number, stripped block text)` per
label match; a block runs from its label to the next label (or the end of
the document). -/
def splitIntoQuestions (mdText : String) : List (Nat × String) :=
  let chars := mdText.toList
  let ms := questionLabelScan mdText
  let bounds := (ms.map (·.1)).drop 1 ++ [chars.length]
  (ms.zip bounds).map (fun mb =>
    (mb.1.2, (pyStripList ((chars.drop mb.1.1).take (mb.2 - mb.1.1))).asString))

/-! ### `extract_question_text` -/

/-- `reverse_map`: every script variant that could represent a canonical
letter (`reverse_map.get(first_letter, [first_letter])`). -/
def reverseMap (c : Char) : List Char :=
  if c = 'A' then ['A', 'А', 'Α']
  else if c = 'B' then ['B', 'В', 'Β']
  else if c = 'C' then ['C', 'С']
  else if c = 'D' then ['D']
  else if c = 'E' then ['E', 'Ε']
  else [c]

/-- Pattern `^\s*[-*]\s*(?:\*\*)?lv(?:\*\*)?\s` at a line start. -/
def p1MatchAt (lv : Char) (l : List Char) : Bool :=
  match headMarker (l.dropWhile isPySpace) with
  | none => false
  | some l =>
    match skipStars (l.dropWhile isPySpace) with
    | c :: rest =>
      c = lv && (match skipStars rest with
                 | c2 :: _ => isPySpace c2
                 | [] => false)
    | [] => false

/-- Pattern `^(?:\*\*)?lv(?:\*\*)?\s` at a line start. -/
def p2MatchAt (lv : Char) (l : List Char) : Bool :=
  match skipStars l with
  | c :: rest =>
    c = lv && (match skipStars rest with
               | c2 :: _ => isPySpace c2
               | [] => false)
  | [] => false

/-- Pattern `\$\$\s*lv\s+\\qquad` at any position. -/
def p3MatchAt (lv : Char) (l : List Char) : Bool :=
  match matchLit ['$', '$'] l with
  | none => false
  | some l =>
    match l.dropWhile isPySpace with
    | c :: rest =>
      c = lv &&
      (let ws := rest.takeWhile isPySpace
       !ws.isEmpty && (matchLit ['\\', 'q', 'q', 'u', 'a', 'd'] (rest.drop ws.length)).isSome)
    | [] => false

/-- `re.search`: index of the first position where `p` holds (the Bool passed
to `p` is the line-start anchor). -/
def searchFromAux (p : Bool → List Char → Bool) : Nat → Nat → Bool → List Char → Option Nat
  | 0, _, _, _ => none
  | _ + 1, idx, atLS, [] => if p atLS [] then some idx else none
  | fuel + 1, idx, atLS, c :: cs =>
    if p atLS (c :: cs) then some idx
    else searchFromAux p fuel (idx + 1) (c = '\n') cs

/-- `re.sub(r'^#+\s*', '', text, flags=re.MULTILINE)`: at every line start,
remove a run of `#`s together with the following whitespace run. -/
def stripHeadingMarkers : Nat → Bool → List Char → List Char
  | 0, _, l => l
  | _ + 1, _, [] => []
  | fuel + 1, atLS, c :: cs =>
    if atLS && c = '#' then
      let run := (c :: cs).takeWhile (fun x => x = '#')
      let rest := (c :: cs).drop run.length
      let ws := rest.takeWhile isPySpace
      stripHeadingMarkers fuel ((run ++ ws).getLast? = some '\n') (rest.drop ws.length)
    else c :: stripHeadingMarkers fuel (c = '\n') cs

/-- `extract_question_text`: strip the leading label, then (when options
exist) cut the text at the earliest position where any script variant of the
first option's letter starts one of the three option-introducing patterns;
finally strip line-leading heading markers. -/
def extractQuestionText (blockText : String) (options : List OptionRec) (_qNum : Nat) :
    String :=
  let chars := blockText.toList
  let text := match tryQLabel false chars with
              | some nr => nr.2
              | none => chars
  let qt :=
    match options with
    | [] => pyStripList text
    | opt :: _ =>
      let variants := reverseMap opt.letter
      let positions := variants.foldl (fun acc lv =>
        acc ++ [searchFromAux (fun atLS l => atLS && p1MatchAt lv l) (text.length + 1) 0 true text,
                searchFromAux (fun atLS l => atLS && p2MatchAt lv l) (text.length + 1) 0 true text,
                searchFromAux (fun _ l => p3MatchAt lv l) (text.length + 1) 0 true text]) []
      let earliest := positions.foldl (fun e pos =>
        match pos with
        | some p => if p < e then p else e
        | none => e) text.length
      pyStripList (text.take earliest)
  (stripHeadingMarkers (qt.length + 1) true qt).asString

/-! ### `detect_issues` -/

/-- One defect flag.  The Python source represents a flag as the single
string `tag ++ ": " ++ msg`; the tag/message split is kept explicit here. -/
structure Flag where
  tag : String
  msg : String
  deriving Repr, DecidableEq

/-- `(?<!\$)\$(?!\$)`: a `$` with no `$` on either side (the argument carries
the previous character). -/
def hasStrayDollarAux : Option Char → List Char → Bool
  | _, [] => false
  | prev, c :: cs =>
    (c = '$' && prev ≠ some '$' && cs.head? ≠ some '$') || hasStrayDollarAux (some c) cs

/-- `\$[^$]+\$`: a dollar, at least one non-dollar, a dollar. -/
def hasInlineMath : List Char → Bool
  | [] => false
  | c :: cs =>
    (c = '$' &&
     (let run := cs.takeWhile (fun x => x ≠ '$')
      !run.isEmpty && (cs.drop run.length).head? = some '$')) || hasInlineMath cs

/-- ASCII lowercase (`[a-z]`). -/
def isAsciiLower (c : Char) : Bool := 'a' ≤ c && c ≤ 'z'

/-- Does `p` hold on some suffix?  (`re.search` as existence of a match
start.) -/
def anySuffix (p : List Char → Bool) : List Char → Bool
  | [] => p []
  | c :: cs => p (c :: cs) || anySuffix p cs

/-- `\d+[a-z]\s+\d+[a-z](?!\w)` at the current position (all runs maximal:
each is followed by a character outside its own class). -/
def missingOpAt (l : List Char) : Bool :=
  let d1 := l.takeWhile isPyDigit
  !d1.isEmpty &&
  (match l.drop d1.length with
   | c :: rest =>
     isAsciiLower c &&
     (let ws := rest.takeWhile isPySpace
      !ws.isEmpty &&
      (let r2 := rest.drop ws.length
       let d2 := r2.takeWhile isPyDigit
       !d2.isEmpty &&
       (match r2.drop d2.length with
        | c2 :: rest2 =>
          isAsciiLower c2 &&
          !(match rest2.head? with
            | some w => isPyWordChar w
            | none => false)
        | [] => false)))
   | [] => false)

/-- `[a-z]\s*<sup>\d+</sup>\s*=\s*[-+]?\s*<sup>` at the current position. -/
def garbledEqAt (l : List Char) : Bool :=
  (do
    let (c, l) ← match l with
                 | c :: r => some (c, r)
                 | [] => none
    guard (isAsciiLower c)
    let l ← matchLit ['<', 's', 'u', 'p', '>'] (l.dropWhile isPySpace)
    let d := l.takeWhile isPyDigit
    guard (!d.isEmpty)
    let l ← matchLit ['<', '/', 's', 'u', 'p', '>'] (l.drop d.length)
    let l ← matchLit ['='] (l.dropWhile isPySpace)
    let l := l.dropWhile isPySpace
    let l := match l with
             | c2 :: r => if c2 = '-' || c2 = '+' then r else c2 :: r
             | [] => l
    let _ ← matchLit ['<', 's', 'u', 'p', '>'] (l.dropWhile isPySpace)
    pure () : Option Unit).isSome

/-- `[ВС](?=\s)`: a Cyrillic В or С directly followed by whitespace. -/
def hasCyrillicBC : List Char → Bool
  | c :: c2 :: rest => ((c = 'В' || c = 'С') && isPySpace c2) || hasCyrillicBC (c2 :: rest)
  | _ => false

/-- `detect_issues`: the six content checks, each independent, on
`question_text + " ".join(option texts)`; reads only those two fields of the
question record. -/
def detectIssues (questionText : String) (options : List OptionRec) : List Flag :=
  let fullText := questionText.toList ++
    (String.intercalate " " (options.map (·.text))).toList
  (if hasSubstr ['<', 's', 'u', 'p', '>'] fullText then
    [⟨"GARBLED_SUPERSCRIPT", "Contains <sup> tags suggesting broken fraction/exponent rendering"⟩]
  else []) ++
  (if hasStrayDollarAux none fullText && !hasInlineMath fullText then
    [⟨"STRAY_DOLLAR_SIGN", "Contains stray $ suggesting broken math notation"⟩]
  else []) ++
  (if anySuffix missingOpAt fullText then
    [⟨"POSSIBLE_MISSING_OPERATOR", "Adjacent terms may be missing an operator"⟩]
  else []) ++
  (if anySuffix garbledEqAt fullText then
    [⟨"GARBLED_EQUATION", "Equation appears mangled"⟩]
  else []) ++
  (if hasCyrillicBC fullText then
    [⟨"CYRILLIC_LETTERS", "May contain Cyrillic В/С instead of Latin B/C"⟩]
  else []) ++
  options.filterMap (fun opt =>
    if (opt.text.toList.filter (fun c => !(isPySpace c || c = '$' || c = '\\'))).isEmpty then
      some ⟨"EMPTY_OPTION", "Option " ++ String.singleton opt.letter ++ " appears empty"⟩
    else none)

/-! ### KVA and NOG sub-field extraction -/

/-- The class `[:\s]`. -/
def isColonOrSpace (c : Char) : Bool := c = ':' || isPySpace c

/-- `[Kk]vantitet\s*II` at the current position (used inside a lookahead). -/
def kvantitetIIAt (l : List Char) : Bool :=
  (do
    let l ← match l with
            | c :: r => if c = 'K' || c = 'k' then some r else none
            | [] => none
    let l ← matchLit ['v', 'a', 'n', 't', 'i', 't', 'e', 't'] l
    let _ ← matchLit ['I', 'I'] (l.dropWhile isPySpace)
    pure () : Option Unit).isSome

/-- Lookahead `(?=\n|[Kk]vantitet\s*II)` of the Kvantitet I pattern. -/
def kvILookahead (l : List Char) : Bool :=
  l.head? = some '\n' || kvantitetIIAt l

/-- `$` of a DOTALL, non-MULTILINE pattern: end of the string, or directly
before a final newline. -/
def atPyDollar (l : List Char) : Bool :=
  l = [] || l = ['\n']

/-- Lookahead `(?=\n\s*[-*]?\s*A\s|\n\n|$)` of the Kvantitet II pattern. -/
def kvIILookahead (l : List Char) : Bool :=
  (match l with
   | '\n' :: rest =>
     rest.head? = some '\n' ||
     (match rest.dropWhile isPySpace with
      | c :: r2 =>
        if c = '-' || c = '*' then
          match r2.dropWhile isPySpace with
          | 'A' :: c2 :: _ => isPySpace c2
          | _ => false
        else
          match c :: r2 with
          | 'A' :: c2 :: _ => isPySpace c2
          | _ => false
      | [] => false)
   | _ => false) ||
  atPyDollar l

/-- Common shape of the two Kvantitet patterns:
`[Kk]vantitet\s*⟨mark⟩[:\s]+(.+?)(?=⟨look⟩)` (DOTALL).  The greedy `[:\s]+`
run backtracks from its maximal length down to 1; for each choice the lazy
group expands to the first position where the lookahead holds.  Returns the
raw group. -/
def tryKvantitetAt (mark : List Char) (look : List Char → Bool) (l : List Char) :
    Option (List Char) := do
  let l ← match l with
          | c :: r => if c = 'K' || c = 'k' then some r else none
          | [] => none
  let l ← matchLit ['v', 'a', 'n', 't', 'i', 't', 'e', 't'] l
  let l ← matchLit mark (l.dropWhile isPySpace)
  let run := l.takeWhile isColonOrSpace
  if run.isEmpty then none
  else
    firstSome (fun r =>
      let rest := l.drop r
      ((List.range' 1 rest.length).find? (fun k => look (rest.drop k))).map
        (fun k => rest.take k))
      ((List.range' 1 run.length).reverse)

/-- `re.search`: first match of `tryM`, scanning left to right. -/
def searchFirst {α : Type} (tryM : List Char → Option α) : Nat → List Char → Option α
  | 0, _ => none
  | _ + 1, [] => tryM []
  | fuel + 1, c :: cs =>
    match tryM (c :: cs) with
    | some r => some r
    | none => searchFirst tryM fuel cs

/-- `re.search(r'[Kk]vantitet\s*I[:\s]+(.+?)(?=\n|[Kk]vantitet\s*II)', text,
re.DOTALL)`, group 1 stripped. -/
def findKvantitetI (text : String) : Option String :=
  (searchFirst (tryKvantitetAt ['I'] kvILookahead) (text.toList.length + 1) text.toList).map
    (fun g => (pyStripList g).asString)

/-- `re.search(r'[Kk]vantitet\s*II[:\s]+(.+?)(?=\n\s*[-*]?\s*A\s|\n\n|$)',
text, re.DOTALL)`, group 1 stripped. -/
def findKvantitetII (text : String) : Option String :=
  (searchFirst (tryKvantitetAt ['I', 'I'] kvIILookahead) (text.toList.length + 1) text.toList).map
    (fun g => (pyStripList g).asString)

/-- One numbered statement of a NOG question. -/
structure Statement where
  number : Nat
  text : String
  deriving Repr, DecidableEq

/-- Lookahead `(?=\(\d\)|\n\s*#{1,4}|\n\s*Tillräcklig|$)` of the NOG
statement pattern. -/
def nogLookahead (l : List Char) : Bool :=
  (match l with
   | '(' :: d :: ')' :: _ => isPyDigit d
   | _ => false) ||
  (match l with
   | '\n' :: rest =>
     (match rest.dropWhile isPySpace with
      | '#' :: _ => true
      | r => (matchLit ['T', 'i', 'l', 'l', 'r', 'ä', 'c', 'k', 'l', 'i', 'g'] r).isSome)
   | _ => false) ||
  atPyDollar l

/-- One match of `\((\d)\)\s+(.+?)(?=...)` (DOTALL): statement number plus
stripped statement text.  The greedy `\s+` backtracks from its maximal run;
the lazy group expands to the first lookahead position. -/
def tryStmtAt (l : List Char) : Option (Statement × List Char) := do
  let (d, l) ← match l with
               | '(' :: d :: ')' :: rest =>
                 if isPyDigit d then some (d, rest) else none
               | _ => none
  let run := l.takeWhile isPySpace
  guard (!run.isEmpty)
  firstSome (fun r =>
    let rest := l.drop r
    ((List.range' 1 rest.length).find? (fun k => nogLookahead (rest.drop k))).map
      (fun k => (⟨d.toNat - '0'.toNat, (pyStripList (rest.take k)).asString⟩, rest.drop k)))
    ((List.range' 1 run.length).reverse)

/-- `finditer` of the NOG statement pattern. -/
def nogStatements (text : String) : List Statement :=
  reFinditer (fun _ l => tryStmtAt l) (fun _ _ => false)
    (text.toList.length + 1) true text.toList

/-! ### `parse_question_block` -/

/-- One extracted question.  Python represents absent keys (`kvantitet_I`,
`kvantitet_II` when falsy, `statements` when empty, `reviewed` when never
set) by leaving them out of the dict; here they are `none`, `[]` and
`false`. -/
structure QuestionRec where
  question_number : Nat
  sectionCode : String
  section_name : String
  question_text : String
  options : List OptionRec
  images : List ImageRec
  flags : List Flag
  kvantitet_I : Option String
  kvantitet_II : Option String
  statements : List Statement
  reviewed : Bool
  deriving Repr, DecidableEq

/-- `parse_question_block`: images, options, question text, the
section-specific sub-fields, the content flags of `detect_issues`, and the
structural option-count check (appended last, applied to every record). -/
def parseQuestionBlock (qNum : Nat) (blockText : String) (sec : String) : QuestionRec :=
  let images := extractImages blockText
  let options := parseOptionsFromBlock blockText sec
  let questionText := extractQuestionText blockText options qNum
  let kvI := if sec = "KVA" then
      match findKvantitetI questionText with
      | some s => if s = "" then none else some s
      | none => none
    else none
  let kvII := if sec = "KVA" then
      match findKvantitetII questionText with
      | some s => if s = "" then none else some s
      | none => none
    else none
  let stmts := if sec = "NOG" then nogStatements questionText else []
  let expectedCount := (expectedLetters sec).length
  let optionCount := options.length
  let flags := detectIssues questionText options ++
    (if optionCount ≠ expectedCount then
      [⟨"OPTION_COUNT_MISMATCH",
        s!"Expected {expectedCount} options, found {optionCount}"⟩]
    else [])
  { question_number := qNum
    sectionCode := sec
    section_name := sectionDisplayName sec
    question_text := questionText
    options := options
    images := images
    flags := flags
    kvantitet_I := kvI
    kvantitet_II := kvII
    statements := stmts
    reviewed := false }

/-! ### `parse_markdown` -/

/-- `(\d{4}-\d{2}-\d{2})` at the current position. -/
def tryDateAt (l : List Char) : Option String :=
  match l with
  | a :: b :: c :: d :: '-' :: e :: f :: '-' :: g :: h :: _ =>
    if isPyDigit a && isPyDigit b && isPyDigit c && isPyDigit d &&
       isPyDigit e && isPyDigit f && isPyDigit g && isPyDigit h then
      some ([a, b, c, d, '-', e, f, '-', g, h].asString)
    else none
  | _ => none

/-- `Provpass\s*(\d+)` at the current position. -/
def tryProvpassAt (l : List Char) : Option Nat := do
  let l ← matchLit ['P', 'r', 'o', 'v', 'p', 'a', 's', 's'] l
  let d := (l.dropWhile isPySpace).takeWhile isPyDigit
  if d.isEmpty then none else some (digitsToNat d)

/-- Per-section metadata entry. -/
structure SectionMeta where
  name : String
  range : List Nat
  question_count : Nat
  deriving Repr, DecidableEq

/-- The document-level metadata block. -/
structure Metadata where
  exam_date : Option String
  provpass : Option Nat
  provpass_type : String
  total_questions : Nat
  questions_with_images : Nat
  questions_with_flags : Nat
  sections : List (String × SectionMeta)
  deriving Repr, DecidableEq

/-- The full result of `parse_markdown`. -/
structure ParseResult where
  metadata : Metadata
  questions : List QuestionRec
  deriving Repr, DecidableEq

/-- Python truthiness of the optional string argument (`not exam_date`):
`None` and `""` are falsy. -/
def pyFalsyStr : Option String → Bool
  | none => true
  | some s => s = ""

/-- Python truthiness of the optional number argument (`not provpass`):
`None` and `0` are falsy. -/
def pyFalsyNat : Option Nat → Bool
  | none => true
  | some n => n = 0

/-- `parse_markdown(md_text, exam_date=None, provpass=None,
provpass_type="kvant")`. -/
def parseMarkdown (mdText : String) (examDate : Option String := none)
    (provpass : Option Nat := none) (provpassType : String := "kvant") : ParseResult :=
  let chars := mdText.toList
  let examDate := match searchFirst tryDateAt (chars.length + 1) chars with
    | some d => if pyFalsyStr examDate then some d else examDate
    | none => examDate
  let provpass := match searchFirst tryProvpassAt (chars.length + 1) chars with
    | some p => if pyFalsyNat provpass then some p else provpass
    | none => provpass
  let sectionRanges := parseSectionRanges mdText provpassType
  let questionBlocks := splitIntoQuestions mdText
  let questions := questionBlocks.map (fun qb =>
    parseQuestionBlock qb.1 qb.2 (determineSection qb.1 sectionRanges))
  let flagged := questions.filter (fun q => !q.flags.isEmpty)
  let withImages := questions.filter (fun q => !q.images.isEmpty)
  let sectionsForMeta := if provpassType = "verbal" then SECTIONS_VERBAL else SECTIONS_KVANT
  { metadata := {
      exam_date := examDate
      provpass := provpass
      provpass_type := provpassType
      total_questions := questions.length
      questions_with_images := withImages.length
      questions_with_flags := flagged.length
      sections := sectionsForMeta.map (fun si =>
        (si.1,
         { name := si.2.name
           range := match rangesGet sectionRanges si.1 with
                    | some r => [r.1, r.2]
                    | none => []
           question_count := (questions.filter (fun q => q.sectionCode = si.1)).length })) }
    questions := questions }

/-! ### `phase_merge_overrides` (pipeline.py) -/

/-- One override patch entry (the JSON object stored under a
question-number key).  A field is `some v` exactly when the key is present
in the patch; `reviewed` carries the truthiness of `override.get("reviewed")`;
`unknownFields` stands for any keys outside the merged field list, which the
merge never reads. -/
structure OverridePatch where
  question_text : Option String := none
  options : Option (List OptionRec) := none
  images : Option (List ImageRec) := none
  flags : Option (List Flag) := none
  kvantitet_I : Option (Option String) := none
  kvantitet_II : Option (Option String) := none
  statements : Option (List Statement) := none
  reviewed : Bool := false
  unknownFields : List String := []
  deriving Repr, DecidableEq

/-- The per-question body of the merge loop: each of the seven fields present
in the patch fully replaces the record's field; a truthy `reviewed` marker
sets the record's reviewed flag. -/
def applyOverride (q : QuestionRec) (ov : OverridePatch) : QuestionRec :=
  { q with
    question_text := ov.question_text.getD q.question_text
    options := ov.options.getD q.options
    images := ov.images.getD q.images
    flags := ov.flags.getD q.flags
    kvantitet_I := ov.kvantitet_I.getD q.kvantitet_I
    kvantitet_II := ov.kvantitet_II.getD q.kvantitet_II
    statements := ov.statements.getD q.statements
    reviewed := q.reviewed || ov.reviewed }

/-- JSON-object lookup (keys are unique in a JSON object; first match). -/
def lookupOverride (ovs : List (String × OverridePatch)) (k : String) :
    Option OverridePatch :=
  (ovs.find? (fun p => p.1 = k)).map (·.2)

/-- `phase_merge_overrides`: `none` models a missing override file (the data
is returned unchanged); otherwise every question whose number's decimal
string is a key of the override object is patched. -/
def phaseMergeOverrides (overrides : Option (List (String × OverridePatch)))
    (parsed : ParseResult) : ParseResult :=
  match overrides with
  | none => parsed
  | some ovs =>
    { parsed with
      questions := parsed.questions.map (fun q =>
        match lookupOverride ovs (toString q.question_number) with
        | none => q
        | some ov => applyOverride q ov) }

/-! ## Helper lemmas -/

/-- A letter accepted by `takeLetter` is in the option-letter class. -/
theorem takeLetter_class {l : List Char} {p : Char × List Char}
    (h : takeLetter l = some p) : isOptionLetterChar p.1 = true := by
  unfold takeLetter at h
  cases l with
  | nil => simp at h
  | cons x xs =>
    by_cases hx : isOptionLetterChar x = true
    · simp [hx] at h
      rw [← h]
      exact hx
    · simp [hx] at h

/-- The only characters in the Latin range of `OPTION_LETTER_CHARS`. -/
theorem char_between_A_E {c : Char} (h1 : 'A' ≤ c) (h2 : c ≤ 'E') :
    c = 'A' ∨ c = 'B' ∨ c = 'C' ∨ c = 'D' ∨ c = 'E' := by
  have g1 : 65 ≤ c.toNat := by
    have := Char.le_def.mp h1
    simpa [UInt32.le_def, BitVec.le_def] using this
  have g2 : c.toNat ≤ 69 := by
    have := Char.le_def.mp h2
    simpa [UInt32.le_def, BitVec.le_def] using this
  have hv : c.toNat = 65 ∨ c.toNat = 66 ∨ c.toNat = 67 ∨ c.toNat = 68 ∨ c.toNat = 69 := by
    omega
  rcases hv with h | h | h | h | h
  · exact Or.inl (Char.ext (UInt32.ext h))
  · exact Or.inr (Or.inl (Char.ext (UInt32.ext h)))
  · exact Or.inr (Or.inr (Or.inl (Char.ext (UInt32.ext h))))
  · exact Or.inr (Or.inr (Or.inr (Or.inl (Char.ext (UInt32.ext h)))))
  · exact Or.inr (Or.inr (Or.inr (Or.inr (Char.ext (UInt32.ext h)))))

/-- A character outside the lookalike table passes through unchanged. -/
theorem normalizeLetter_not_mem {c : Char} (hc : c ∉ normalizeTableKeys) :
    normalizeLetter c = c := by
  simp only [normalizeTableKeys, List.mem_cons, List.not_mem_nil, or_false] at hc
  push_neg at hc
  obtain ⟨h1, h2, h3, h4, h5, h6, h7, h8, h9, h10, h11, h12⟩ := hc
  simp [normalizeLetter, h1, h2, h3, h4, h5, h6, h7, h8, h9, h10, h11, h12]

/-- Every value of `normalize_letter` is either its argument or a canonical
Latin letter. -/
theorem normalizeLetter_cases (c : Char) :
    normalizeLetter c = c ∨ normalizeLetter c ∈ (['A', 'B', 'C', 'D', 'E'] : List Char) := by
  by_cases hc : c ∈ normalizeTableKeys
  · right
    fin_cases hc <;> decide
  · left
    exact normalizeLetter_not_mem hc

/-- Dict update then `find?` at the same key. -/
theorem find?_rangesSet_self (d : List (String × (Nat × Nat))) (k : String)
    (v : Nat × Nat) :
    (rangesSet d k v).find? (fun p => p.1 = k) = some (k, v) := by
  induction d with
  | nil => simp [rangesSet, List.find?]
  | cons p ps ih =>
    by_cases h : p.1 = k
    · simp [rangesSet, h, List.find?]
    · simp only [rangesSet, if_neg h, List.find?, decide_eq_false h]
      exact ih

/-- Dict update then lookup at the same key. -/
theorem rangesGet_rangesSet_self (d : List (String × (Nat × Nat))) (k : String)
    (v : Nat × Nat) : rangesGet (rangesSet d k v) k = some v := by
  simp [rangesGet, find?_rangesSet_self]

/-- Dict update then `find?` at another key. -/
theorem find?_rangesSet_ne (d : List (String × (Nat × Nat))) {k k' : String}
    (v : Nat × Nat) (h : k' ≠ k) :
    (rangesSet d k v).find? (fun p => p.1 = k') = d.find? (fun p => p.1 = k') := by
  have hkk : ¬(k = k') := fun e => h e.symm
  induction d with
  | nil => simp [rangesSet, List.find?, hkk]
  | cons p ps ih =>
    by_cases hp : p.1 = k
    · have hpk : ¬(p.1 = k') := fun e => h (hp ▸ e).symm
      simp only [rangesSet, if_pos hp, List.find?, decide_eq_false hkk, decide_eq_false hpk]
    · simp only [rangesSet, if_neg hp, List.find?]
      by_cases hq : p.1 = k'
      · simp only [decide_eq_true hq]
      · simp only [decide_eq_false hq]
        exact ih

/-- Dict update then lookup at another key. -/
theorem rangesGet_rangesSet_ne (d : List (String × (Nat × Nat))) {k k' : String}
    (v : Nat × Nat) (h : k' ≠ k) :
    rangesGet (rangesSet d k v) k' = rangesGet d k' := by
  simp [rangesGet, find?_rangesSet_ne d v h]

/-- Last-match-wins characterization of the `parse_section_ranges` fold for a
known section code. -/
theorem foldl_applyRangeRow_get (rows : List (String × Nat × Nat))
    (base : List (String × (Nat × Nat))) (C : String)
    (hC : (dictGet SECTIONS C).isSome) :
    rangesGet (rows.foldl applyRangeRow base) C =
      match (rows.filter (fun r => pyUpper r.1 == C)).getLast? with
      | some row => some row.2
      | none => rangesGet base C := by
  induction rows using List.reverseRecOn with
  | nil => simp
  | append_singleton rs row ih =>
    rw [List.foldl_append, List.filter_append]
    by_cases hrow : pyUpper row.1 = C
    · have hfilter : List.filter (fun r => pyUpper r.1 == C) [row] = [row] := by
        simp [List.filter, beq_iff_eq.mpr hrow]
      rw [hfilter, List.getLast?_concat]
      simp only [List.foldl_cons, List.foldl_nil]
      unfold applyRangeRow
      rw [hrow, if_pos hC, rangesGet_rangesSet_self]
    · have hfilter : List.filter (fun r => pyUpper r.1 == C) [row] = [] := by
        simp [List.filter, beq_eq_false_iff_ne.mpr hrow]
      rw [hfilter, List.append_nil]
      simp only [List.foldl_cons, List.foldl_nil]
      unfold applyRangeRow
      by_cases hknown : (dictGet SECTIONS (pyUpper row.1)).isSome
      · rw [if_pos hknown, rangesGet_rangesSet_ne _ _ (fun e => hrow e.symm)]
        exact ih
      · rw [if_neg hknown]
        exact ih

/-- The fold never touches a code outside the combined `SECTIONS` table. -/
theorem foldl_applyRangeRow_unknown (rows : List (String × Nat × Nat))
    (base : List (String × (Nat × Nat))) (C : String)
    (hC : ¬(dictGet SECTIONS C).isSome = true) :
    rangesGet (rows.foldl applyRangeRow base) C = rangesGet base C := by
  induction rows generalizing base with
  | nil => simp
  | cons row rest ih =>
    simp only [List.foldl_cons]
    rw [ih]
    unfold applyRangeRow
    by_cases hknown : (dictGet SECTIONS (pyUpper row.1)).isSome
    · rw [if_pos hknown]
      refine rangesGet_rangesSet_ne _ _ (fun e => hC ?_)
      rw [e]
      exact hknown
    · rw [if_neg hknown]

/-! ## Claim theorems -/

/-- C8: `normalize_letter` is a total pure function: every character of its
fixed lookup table maps to the listed canonical Latin letter, every character
outside the table (in particular every canonical letter A–E) passes through
unchanged, and the function is idempotent. -/
theorem normalize_letter_total_idempotent :
    (∀ c : Char, c ∉ normalizeTableKeys → normalizeLetter c = c) ∧
    (normalizeLetter 'А' = 'A' ∧ normalizeLetter 'а' = 'A' ∧ normalizeLetter 'Б' = 'B' ∧
     normalizeLetter 'В' = 'B' ∧ normalizeLetter 'С' = 'C' ∧ normalizeLetter 'с' = 'C' ∧
     normalizeLetter 'Д' = 'D' ∧ normalizeLetter 'Е' = 'E' ∧ normalizeLetter 'е' = 'E' ∧
     normalizeLetter 'Α' = 'A' ∧ normalizeLetter 'Β' = 'B' ∧ normalizeLetter 'Ε' = 'E') ∧
    (∀ c : Char, c ∈ (['A', 'B', 'C', 'D', 'E'] : List Char) → normalizeLetter c = c) ∧
    (∀ c : Char, normalizeLetter (normalizeLetter c) = normalizeLetter c) := by
  refine ⟨fun c hc => normalizeLetter_not_mem hc, by decide, ?_, ?_⟩
  · intro c hc
    fin_cases hc <;> decide
  · intro c
    by_cases hc : c ∈ normalizeTableKeys
    · fin_cases hc <;> decide
    · have h := normalizeLetter_not_mem hc
      rw [h, h]

/-- Witness for C8 at concrete characters. -/
theorem normalize_letter_total_idempotent_witness :
    normalizeLetter 'x' = 'x' ∧ normalizeLetter 'B' = 'B' :=
  ⟨normalize_letter_total_idempotent.1 'x' (by decide),
   normalize_letter_total_idempotent.2.2.1 'B' (by decide)⟩

/-- C4: `parse_section_ranges` starts from the verbal default table for the
`"verbal"` tag and the kvantitativ default table for every other tag, then
overwrites the range of each known subsection code found in a table row with
that row's (start, end); the last matching row wins, and malformed or
unrecognized rows are discarded. -/
theorem parse_section_ranges_spec :
    (∀ md t, t ≠ "verbal" → parseSectionRanges md t = parseSectionRanges md "kvant") ∧
    (∀ md t, tableRows md = [] →
      parseSectionRanges md t =
        (if t = "verbal" then verbalDefaultRanges else kvantDefaultRanges)) ∧
    (∀ md t C row, (dictGet SECTIONS C).isSome →
      ((tableRows md).filter (fun r => pyUpper r.1 == C)).getLast? = some row →
      rangesGet (parseSectionRanges md t) C = some row.2) ∧
    (∀ md t C, ¬(dictGet SECTIONS C).isSome = true →
      rangesGet (parseSectionRanges md t) C =
        rangesGet (if t = "verbal" then verbalDefaultRanges else kvantDefaultRanges) C) ∧
    (parseSectionRanges "| ZZZ | 1 | 5–9 |\n| XYZ | 1 | 5 9 |" "kvant" = kvantDefaultRanges) := by
  refine ⟨?_, ?_, ?_, ?_, by decide⟩
  · intro md t ht
    unfold parseSectionRanges
    rw [if_neg ht, if_neg (by decide : ¬("kvant" : String) = "verbal")]
  · intro md t h
    unfold parseSectionRanges
    rw [h]
    simp
  · intro md t C row hC hlast
    unfold parseSectionRanges
    rw [foldl_applyRangeRow_get _ _ _ hC, hlast]
  · intro md t C hC
    unfold parseSectionRanges
    exact foldl_applyRangeRow_unknown _ _ _ hC

/-- Witness for C4: a non-verbal tag resolves like `"kvant"`, and an
in-document row overrides the default. -/
theorem parse_section_ranges_spec_witness :
    parseSectionRanges "| KVA | 10 | 14–23 |" "x" = parseSectionRanges "| KVA | 10 | 14–23 |" "kvant" ∧
    rangesGet (parseSectionRanges "| KVA | 10 | 14–23 |" "kvant") "KVA" = some (14, 23) :=
  ⟨parse_section_ranges_spec.1 "| KVA | 10 | 14–23 |" "x" (by decide),
   parse_section_ranges_spec.2.2.1 "| KVA | 10 | 14–23 |" "kvant" "KVA" ("KVA", 14, 23)
     (by decide) (by decide)⟩

/-- C9: with the `"verbal"` tag, a table row bearing a quantitative code
(XYZ, KVA, NOG, DTK) is still accepted — row codes are checked against the
combined code set of both tables — so the returned mapping can contain a
quantitative code next to the three verbal defaults, and `determine_section`
can then assign that code to a question. -/
theorem verbal_ranges_accept_kvant_codes :
    (parseSectionRanges "| XYZ | 5 | 41–45 |" "verbal" =
      verbalDefaultRanges ++ [("XYZ", (41, 45))]) ∧
    (determineSection 42 (parseSectionRanges "| XYZ | 5 | 41–45 |" "verbal") = "XYZ") ∧
    (∀ md C, C ∈ SECTIONS_KVANT.map Prod.fst →
      ((tableRows md).filter (fun r => pyUpper r.1 == C)) ≠ [] →
      (rangesGet (parseSectionRanges md "verbal") C).isSome = true) ∧
    (∀ C, C ∈ SECTIONS_KVANT.map Prod.fst → (dictGet SECTIONS C).isSome = true) := by
  have hknown : ∀ C, C ∈ SECTIONS_KVANT.map Prod.fst → (dictGet SECTIONS C).isSome = true := by
    intro C hC
    fin_cases hC <;> decide
  refine ⟨by decide, by decide, ?_, hknown⟩
  intro md C hC hne
  cases hlast : ((tableRows md).filter (fun r => pyUpper r.1 == C)).getLast? with
  | none =>
    exact absurd (List.getLast?_eq_none_iff.mp hlast) hne
  | some row =>
    unfold parseSectionRanges
    rw [foldl_applyRangeRow_get _ _ _ (hknown C hC), hlast]
    rfl

/-- Witness for C9: a KVA row in a verbal document lands in the mapping. -/
theorem verbal_ranges_accept_kvant_codes_witness :
    (rangesGet (parseSectionRanges "| KVA | 5 | 77–88 |" "verbal") "KVA").isSome = true :=
  verbal_ranges_accept_kvant_codes.2.2.1 "| KVA | 5 | 77–88 |" "KVA" (by decide) (by decide)

/-! ## Option-extraction invariants (C1) -/

/-- The invariant maintained by `add_option`'s shared acceptance gate: the
recorded option letters are exactly `found_letters`, pairwise distinct, and
all inside the expected alphabet. -/
def OptionStateInv (expected : String) (st : OptState) : Prop :=
  st.options.map (·.letter) = st.foundLetters ∧
  st.foundLetters.Nodup ∧
  ∀ l ∈ st.foundLetters, l ∈ expected.toList

theorem addOption_inv {expected : String} {st : OptState} (c : Char) (t : String)
    (h : OptionStateInv expected st) :
    OptionStateInv expected (addOption expected st c t) := by
  obtain ⟨h1, h2, h3⟩ := h
  unfold addOption
  by_cases hc : (st.foundLetters.contains (normalizeLetter c) ||
      !(expected.toList.contains (normalizeLetter c))) = true
  · rw [if_pos hc]
    exact ⟨h1, h2, h3⟩
  · rw [if_neg hc]
    simp only [Bool.or_eq_true, Bool.not_eq_true', not_or, Bool.not_eq_true] at hc
    obtain ⟨hnotb, hmemb⟩ := hc
    have hnot : normalizeLetter c ∉ st.foundLetters := by simpa using hnotb
    have hmem : normalizeLetter c ∈ expected.toList := by simpa using hmemb
    refine ⟨?_, ?_, ?_⟩
    · simp [h1]
    · rw [List.nodup_append]
      refine ⟨h2, List.nodup_singleton _, ?_⟩
      intro a ha hb
      simp only [List.mem_singleton] at hb
      exact hnot (hb ▸ ha)
    · intro l hl
      rcases List.mem_append.mp hl with hl | hl
      · exact h3 l hl
      · rw [List.mem_singleton.mp hl]
        exact hmem

/-- Folding any candidate list through an invariant-preserving step keeps
the invariant. -/
theorem foldl_inv {β : Type} {expected : String} (step : OptState → β → OptState)
    (hstep : ∀ st c, OptionStateInv expected st → OptionStateInv expected (step st c)) :
    ∀ (cands : List β) (st : OptState), OptionStateInv expected st →
      OptionStateInv expected (cands.foldl step st)
  | [], _, h => h
  | c :: cs, st, h => foldl_inv step hstep cs (step st c) (hstep st c h)

/-- A count-guarded strategy pass keeps the invariant. -/
theorem inv_guarded_fold {expected : String} {cond : Prop} [Decidable cond]
    {step : OptState → (Char × String) → OptState}
    (hstep : ∀ st c, OptionStateInv expected st → OptionStateInv expected (step st c))
    {cands : List (Char × String)} {st : OptState} (h : OptionStateInv expected st) :
    OptionStateInv expected (if cond then cands.foldl step st else st) := by
  split
  · exact foldl_inv step hstep cands st h
  · exact h

theorem optionExtractionState_inv (blockText sec : String) :
    OptionStateInv (expectedLetters sec) (optionExtractionState blockText sec) := by
  have base : OptionStateInv (expectedLetters sec) ⟨[], []⟩ :=
    ⟨rfl, List.nodup_nil, by simp⟩
  have hstep : ∀ (st : OptState) (c : Char × String),
      OptionStateInv (expectedLetters sec) st →
      OptionStateInv (expectedLetters sec) (addOption (expectedLetters sec) st c.1 (pyStrip c.2)) :=
    fun _ c h => addOption_inv c.1 (pyStrip c.2) h
  have hstep2 : ∀ (st : OptState) (c : Char × String),
      OptionStateInv (expectedLetters sec) st →
      OptionStateInv (expectedLetters sec)
        (if containsSkipWord (pyStrip c.2) then st
         else addOption (expectedLetters sec) st c.1 (pyStrip c.2)) := by
    intro st c h
    split
    · exact h
    · exact addOption_inv c.1 (pyStrip c.2) h
  have hstep6 : ∀ (st : OptState) (c : Char × String),
      OptionStateInv (expectedLetters sec) st →
      OptionStateInv (expectedLetters sec) (addOption (expectedLetters sec) st c.1 c.2) :=
    fun _ c h => addOption_inv c.1 c.2 h
  exact inv_guarded_fold hstep6 (inv_guarded_fold hstep (inv_guarded_fold hstep
    (inv_guarded_fold hstep (inv_guarded_fold hstep2
      (foldl_inv _ hstep _ _ base)))))

/-- Stable insertion is a permutation. -/
theorem insertByLetter_perm (x : OptionRec) (l : List OptionRec) :
    (insertByLetter x l).Perm (x :: l) := by
  induction l with
  | nil => exact List.Perm.refl _
  | cons y ys ih =>
    unfold insertByLetter
    split
    · exact (ih.cons y).trans (List.Perm.swap x y ys)
    · exact List.Perm.refl _

theorem sortByLetter_foldl_perm (l : List OptionRec) :
    ∀ acc : List OptionRec,
      (l.foldl (fun acc x => insertByLetter x acc) acc).Perm (acc ++ l) := by
  induction l with
  | nil => intro acc; simp
  | cons x xs ih =>
    intro acc
    exact (ih (insertByLetter x acc)).trans
      (((insertByLetter_perm x acc).append_right xs).trans List.perm_middle.symm)

/-- `sortByLetter` permutes its input. -/
theorem sortByLetter_perm (l : List OptionRec) : (sortByLetter l).Perm l :=
  sortByLetter_foldl_perm l []

/-- The key-order relation used by the sort. -/
def KeyLe (a b : OptionRec) : Prop :=
  letterOrderKey a.letter ≤ letterOrderKey b.letter

theorem insertByLetter_sorted {x : OptionRec} {l : List OptionRec}
    (h : l.Pairwise KeyLe) : (insertByLetter x l).Pairwise KeyLe := by
  induction l with
  | nil => exact List.pairwise_singleton _ _
  | cons y ys ih =>
    rw [List.pairwise_cons] at h
    obtain ⟨hy, hys⟩ := h
    unfold insertByLetter
    split
    · rename_i hle
      rw [List.pairwise_cons]
      refine ⟨?_, ih hys⟩
      intro z hz
      rcases List.mem_cons.mp (((insertByLetter_perm x ys).mem_iff).mp hz) with hz | hz
      · exact hz ▸ hle
      · exact hy z hz
    · rename_i hgt
      have hxy : KeyLe x y := Nat.le_of_not_le hgt
      rw [List.pairwise_cons]
      refine ⟨?_, by rw [List.pairwise_cons]; exact ⟨hy, hys⟩⟩
      intro z hz
      rcases List.mem_cons.mp hz with hz | hz
      · exact hz ▸ hxy
      · exact Nat.le_trans hxy (hy z hz)

theorem sortByLetter_foldl_sorted (l : List OptionRec) :
    ∀ acc : List OptionRec, acc.Pairwise KeyLe →
      (l.foldl (fun acc x => insertByLetter x acc) acc).Pairwise KeyLe := by
  induction l with
  | nil => intro acc h; exact h
  | cons x xs ih => intro acc h; exact ih _ (insertByLetter_sorted h)

/-- `sortByLetter` sorts by the letter key. -/
theorem sortByLetter_sorted (l : List OptionRec) : (sortByLetter l).Pairwise KeyLe :=
  sortByLetter_foldl_sorted l [] List.Pairwise.nil

/-- The expected alphabet of every section is a prefix of ABCDE. -/
theorem expectedLetters_cases (s : String) :
    expectedLetters s = "ABCD" ∨ expectedLetters s = "ABCDE" := by
  unfold expectedLetters dictGet
  cases h : SECTIONS.find? (fun p => p.1 = s) with
  | none => left; rfl
  | some p =>
    have hp := List.mem_of_find?_eq_some h
    fin_cases hp <;> simp

/-- Order on the canonical letters agrees with the sort key. -/
theorem letter_key_lt {c d : Char}
    (hc : c ∈ (['A', 'B', 'C', 'D', 'E'] : List Char))
    (hd : d ∈ (['A', 'B', 'C', 'D', 'E'] : List Char))
    (hle : letterOrderKey c ≤ letterOrderKey d) (hne : c ≠ d) : c < d := by
  fin_cases hc <;> fin_cases hd <;> revert hle hne <;> decide

/-- C1: for every block and section, `parse_options_from_block` returns
options whose letters are pairwise distinct, drawn from the section's
expected alphabet (a prefix of ABCDE), and sorted into canonical letter
order regardless of discovery order. -/
theorem parse_options_from_block_invariants (blockText sec : String) :
    (∀ o ∈ parseOptionsFromBlock blockText sec,
        o.letter ∈ (expectedLetters sec).toList) ∧
    ((parseOptionsFromBlock blockText sec).map (·.letter)).Nodup ∧
    (parseOptionsFromBlock blockText sec).Pairwise
      (fun a b : OptionRec => a.letter < b.letter) ∧
    (expectedLetters sec = "ABCD" ∨ expectedLetters sec = "ABCDE") := by
  obtain ⟨h1, h2, h3⟩ := optionExtractionState_inv blockText sec
  have hperm : (parseOptionsFromBlock blockText sec).Perm
      (optionExtractionState blockText sec).options :=
    sortByLetter_perm _
  have hmem : ∀ o ∈ parseOptionsFromBlock blockText sec,
      o.letter ∈ (expectedLetters sec).toList := by
    intro o ho
    have : o ∈ (optionExtractionState blockText sec).options := hperm.mem_iff.mp ho
    have : o.letter ∈ (optionExtractionState blockText sec).options.map (·.letter) :=
      List.mem_map_of_mem _ this
    rw [h1] at this
    exact h3 _ this
  have hnodup : ((parseOptionsFromBlock blockText sec).map (·.letter)).Nodup := by
    have hpm : ((optionExtractionState blockText sec).options.map (·.letter)).Perm
        ((parseOptionsFromBlock blockText sec).map (·.letter)) :=
      (hperm.map _).symm
    exact hpm.nodup (h1 ▸ h2)
  have habcde : ∀ o ∈ parseOptionsFromBlock blockText sec,
      o.letter ∈ (['A', 'B', 'C', 'D', 'E'] : List Char) := by
    intro o ho
    have hm := hmem o ho
    rcases expectedLetters_cases sec with he | he <;> rw [he] at hm
    · exact (by decide : ("ABCD".toList : List Char) ⊆ ['A', 'B', 'C', 'D', 'E']) hm
    · exact (by decide : ("ABCDE".toList : List Char) ⊆ ['A', 'B', 'C', 'D', 'E']) hm
  have hsorted : (parseOptionsFromBlock blockText sec).Pairwise KeyLe := by
    unfold parseOptionsFromBlock
    exact sortByLetter_sorted _
  have hne : (parseOptionsFromBlock blockText sec).Pairwise
      (fun a b : OptionRec => a.letter ≠ b.letter) :=
    List.pairwise_map.mp hnodup
  refine ⟨hmem, hnodup, ?_, expectedLetters_cases sec⟩
  exact (hsorted.and hne).imp_of_mem
    (fun {a b} ha hb hab => letter_key_lt (habcde a ha) (habcde b hb) hab.1 hab.2)

/-! ## Record assembly (C2, C3, C6) -/

/-- The options of an assembled record are the extracted options. -/
theorem parseQuestionBlock_options (qNum : Nat) (blockText sec : String) :
    (parseQuestionBlock qNum blockText sec).options = parseOptionsFromBlock blockText sec :=
  rfl

/-- The question number of an assembled record is the block's label. -/
theorem parseQuestionBlock_number (qNum : Nat) (blockText sec : String) :
    (parseQuestionBlock qNum blockText sec).question_number = qNum :=
  rfl

/-- The flags of an assembled record: the content flags of `detect_issues`,
then the structural count-mismatch flag exactly when the option count differs
from the expected alphabet length. -/
theorem parseQuestionBlock_flags (qNum : Nat) (blockText sec : String) :
    (parseQuestionBlock qNum blockText sec).flags =
      detectIssues (extractQuestionText blockText (parseOptionsFromBlock blockText sec) qNum)
        (parseOptionsFromBlock blockText sec) ++
      (if (parseOptionsFromBlock blockText sec).length ≠ (expectedLetters sec).length then
        [⟨"OPTION_COUNT_MISMATCH",
          s!"Expected {(expectedLetters sec).length} options, found {(parseOptionsFromBlock blockText sec).length}"⟩]
      else []) :=
  rfl

/-- Every flag of `detect_issues` bears one of its six content tags. -/
theorem detectIssues_tags {t : String} {opts : List OptionRec} :
    ∀ f ∈ detectIssues t opts,
      f.tag ∈ (["GARBLED_SUPERSCRIPT", "STRAY_DOLLAR_SIGN", "POSSIBLE_MISSING_OPERATOR",
                 "GARBLED_EQUATION", "CYRILLIC_LETTERS", "EMPTY_OPTION"] : List String) := by
  intro f hf
  unfold detectIssues at hf
  simp only [List.mem_append] at hf
  rcases hf with ((((hf | hf) | hf) | hf) | hf) | hf
  · split at hf
    · rw [List.mem_singleton] at hf
      subst hf
      decide
    · simp at hf
  · split at hf
    · rw [List.mem_singleton] at hf
      subst hf
      decide
    · simp at hf
  · split at hf
    · rw [List.mem_singleton] at hf
      subst hf
      decide
    · simp at hf
  · split at hf
    · rw [List.mem_singleton] at hf
      subst hf
      decide
    · simp at hf
  · split at hf
    · rw [List.mem_singleton] at hf
      subst hf
      decide
    · simp at hf
  · obtain ⟨opt, _, heq⟩ := List.mem_filterMap.mp hf
    split at heq
    · rw [Option.some.injEq] at heq
      subst heq
      simp
    · simp at heq

/-- C2: an assembled record has as many options as the section's expected
alphabet exactly when its flags contain no OPTION_COUNT_MISMATCH flag; the
structural count check is applied to every record, independently of the
content flags. -/
theorem option_count_mismatch_iff (qNum : Nat) (blockText sec : String) :
    ((parseQuestionBlock qNum blockText sec).options.length =
      (expectedLetters sec).length) ↔
    (∀ f ∈ (parseQuestionBlock qNum blockText sec).flags,
      f.tag ≠ "OPTION_COUNT_MISMATCH") := by
  rw [parseQuestionBlock_options, parseQuestionBlock_flags]
  constructor
  · intro h f hf
    rw [if_neg (fun hne => hne h), List.append_nil] at hf
    have hm := detectIssues_tags f hf
    intro heq
    rw [heq] at hm
    revert hm
    decide
  · intro hall
    by_contra hne
    have hmem : (⟨"OPTION_COUNT_MISMATCH",
        s!"Expected {(expectedLetters sec).length} options, found {(parseOptionsFromBlock blockText sec).length}"⟩ : Flag) ∈
        detectIssues (extractQuestionText blockText (parseOptionsFromBlock blockText sec) qNum)
          (parseOptionsFromBlock blockText sec) ++
        (if (parseOptionsFromBlock blockText sec).length ≠ (expectedLetters sec).length then
          [⟨"OPTION_COUNT_MISMATCH",
            s!"Expected {(expectedLetters sec).length} options, found {(parseOptionsFromBlock blockText sec).length}"⟩]
        else []) := by
      rw [if_pos hne]
      exact List.mem_append_right _ (List.mem_singleton.mpr rfl)
    exact hall _ hmem rfl

/-- The questions of `parse_markdown`: one record per splitter block, with
the block's own label as the question number. -/
theorem parseMarkdown_questions (md : String) (d : Option String) (p : Option Nat)
    (t : String) :
    (parseMarkdown md d p t).questions =
      (splitIntoQuestions md).map (fun qb =>
        parseQuestionBlock qb.1 qb.2 (determineSection qb.1 (parseSectionRanges md t))) :=
  rfl

/-- `total_questions` counts the question records. -/
theorem parseMarkdown_total (md : String) (d : Option String) (p : Option Nat)
    (t : String) :
    (parseMarkdown md d p t).metadata.total_questions =
      (parseMarkdown md d p t).questions.length :=
  rfl

/-- C3 (counterexample): on the document `"1. a\n1. b"` the splitter detects
the label 1 twice and `parse_markdown` emits two records with the same
question number — the claimed distinctness fails. -/
theorem question_numbers_not_nodup_counterexample :
    ¬ (((parseMarkdown "1. a\n1. b").questions.map
        (fun q => q.question_number)).Nodup) := by
  have h : ((parseMarkdown "1. a\n1. b").questions.map
      (fun q => q.question_number)) = [1, 1] := by decide
  rw [h]
  decide

/-- C3 (amended): the list of question numbers in the output records equals,
in order, the list of labels detected by the Block Splitter (so in particular
the sets and multiplicities agree); output numbers are pairwise distinct
whenever the detected labels are. -/
theorem question_numbers_match_labels (md : String) (d : Option String)
    (p : Option Nat) (t : String) :
    ((parseMarkdown md d p t).questions.map (fun q => q.question_number) =
      (splitIntoQuestions md).map Prod.fst) ∧
    (((splitIntoQuestions md).map Prod.fst).Nodup →
      ((parseMarkdown md d p t).questions.map (fun q => q.question_number)).Nodup) := by
  have h : (parseMarkdown md d p t).questions.map (fun q => q.question_number) =
      (splitIntoQuestions md).map Prod.fst := by
    rw [parseMarkdown_questions, List.map_map]
    exact List.map_congr_left (fun qb _ => rfl)
  exact ⟨h, fun hn => h ▸ hn⟩

/-- Witness for the amended C3 on a document with distinct labels. -/
theorem question_numbers_match_labels_witness :
    ((parseMarkdown "1. x\n2. y").questions.map (fun q => q.question_number)).Nodup :=
  (question_numbers_match_labels "1. x\n2. y" none none "kvant").2 (by decide)

/-- C6: extraction never fails on empty input: the empty document yields zero
blocks and a result with zero questions, and in general a text without any
question-number label yields the empty block list and a result with zero
questions — absence is data, not an error. -/
theorem empty_document_yields_no_questions (md : String) (d : Option String)
    (p : Option Nat) (t : String) :
    (splitIntoQuestions "" = []) ∧
    ((parseMarkdown "").metadata.total_questions = 0) ∧
    ((parseMarkdown "").questions = []) ∧
    (questionLabelScan md = [] →
      splitIntoQuestions md = [] ∧
      (parseMarkdown md d p t).metadata.total_questions = 0 ∧
      (parseMarkdown md d p t).questions = []) := by
  refine ⟨by decide, by decide, by decide, ?_⟩
  intro h
  have hsplit : splitIntoQuestions md = [] := by
    unfold splitIntoQuestions
    rw [h]
    rfl
  refine ⟨hsplit, ?_, ?_⟩
  · rw [parseMarkdown_total, parseMarkdown_questions, hsplit]
    rfl
  · rw [parseMarkdown_questions, hsplit]
    rfl

/-- Witness for C6 on a label-free nonempty document. -/
theorem empty_document_yields_no_questions_witness :
    splitIntoQuestions "ingen fråga här" = [] ∧
    (parseMarkdown "ingen fråga här").questions = [] :=
  ⟨((empty_document_yields_no_questions "ingen fråga här" none none "kvant").2.2.2
      (by decide)).1,
   ((empty_document_yields_no_questions "ingen fråga här" none none "kvant").2.2.2
      (by decide)).2.2⟩

/-! ## Override merge (C5) -/

/-- C5: the override merge patches exactly the questions whose number string
is a key of the patch object; every field present in a patch entry fully
replaces the record's field (never deep-merged), fields absent from the entry
are untouched, a truthy reviewed marker sets the reviewed flag, identity
fields are never touched, and unknown patch keys and unexpected field names
are ignored without rejecting the merge. -/
theorem phase_merge_overrides_spec :
    (∀ parsed, phaseMergeOverrides none parsed = parsed) ∧
    (∀ parsed ovs, (phaseMergeOverrides (some ovs) parsed).metadata = parsed.metadata) ∧
    (∀ parsed ovs, (phaseMergeOverrides (some ovs) parsed).questions =
      parsed.questions.map (fun q =>
        match lookupOverride ovs (toString q.question_number) with
        | none => q
        | some ov => applyOverride q ov)) ∧
    (∀ q ov,
      ((ov.question_text = none → (applyOverride q ov).question_text = q.question_text) ∧
       (∀ v, ov.question_text = some v → (applyOverride q ov).question_text = v)) ∧
      ((ov.options = none → (applyOverride q ov).options = q.options) ∧
       (∀ v, ov.options = some v → (applyOverride q ov).options = v)) ∧
      ((ov.images = none → (applyOverride q ov).images = q.images) ∧
       (∀ v, ov.images = some v → (applyOverride q ov).images = v)) ∧
      ((ov.flags = none → (applyOverride q ov).flags = q.flags) ∧
       (∀ v, ov.flags = some v → (applyOverride q ov).flags = v)) ∧
      ((ov.kvantitet_I = none → (applyOverride q ov).kvantitet_I = q.kvantitet_I) ∧
       (∀ v, ov.kvantitet_I = some v → (applyOverride q ov).kvantitet_I = v)) ∧
      ((ov.kvantitet_II = none → (applyOverride q ov).kvantitet_II = q.kvantitet_II) ∧
       (∀ v, ov.kvantitet_II = some v → (applyOverride q ov).kvantitet_II = v)) ∧
      ((ov.statements = none → (applyOverride q ov).statements = q.statements) ∧
       (∀ v, ov.statements = some v → (applyOverride q ov).statements = v)) ∧
      (ov.reviewed = true → (applyOverride q ov).reviewed = true) ∧
      (ov.reviewed = false → (applyOverride q ov).reviewed = q.reviewed) ∧
      ((applyOverride q ov).question_number = q.question_number ∧
       (applyOverride q ov).sectionCode = q.sectionCode ∧
       (applyOverride q ov).section_name = q.section_name)) ∧
    (∀ q ov extra, applyOverride q { ov with unknownFields := extra } = applyOverride q ov) ∧
    (∀ parsed ovs k p,
      k ∉ parsed.questions.map (fun q => toString q.question_number) →
      phaseMergeOverrides (some ((k, p) :: ovs)) parsed =
        phaseMergeOverrides (some ovs) parsed) := by
  refine ⟨fun _ => rfl, fun _ _ => rfl, fun _ _ => rfl, ?_, fun _ _ _ => rfl, ?_⟩
  · intro q ov
    refine ⟨⟨?_, ?_⟩, ⟨?_, ?_⟩, ⟨?_, ?_⟩, ⟨?_, ?_⟩, ⟨?_, ?_⟩, ⟨?_, ?_⟩, ⟨?_, ?_⟩,
      ?_, ?_, rfl, rfl, rfl⟩ <;>
      first
        | (intro h; simp [applyOverride, h])
        | (intro v h; simp [applyOverride, h])
  · intro parsed ovs k p hk
    simp only [phaseMergeOverrides]
    congr 1
    apply List.map_congr_left
    intro q hq
    have hne : ¬(k = toString q.question_number) := by
      intro he
      exact hk (he ▸ List.mem_map_of_mem (fun q => toString q.question_number) hq)
    unfold lookupOverride
    simp only [List.find?, decide_eq_false hne]

/-- Witness for C5: a patch replaces exactly the named field, a missing file
leaves the data unchanged, and an unknown key changes nothing. -/
theorem phase_merge_overrides_spec_witness :
    phaseMergeOverrides none (parseMarkdown "") = parseMarkdown "" ∧
    (applyOverride (parseQuestionBlock 1 "1. x" "XYZ")
        { question_text := some "ny text" }).question_text = "ny text" ∧
    (applyOverride (parseQuestionBlock 1 "1. x" "XYZ")
        { question_text := some "ny text" }).options =
      (parseQuestionBlock 1 "1. x" "XYZ").options ∧
    phaseMergeOverrides (some [("7", { reviewed := true })]) (parseMarkdown "1. x") =
      phaseMergeOverrides (some []) (parseMarkdown "1. x") :=
  ⟨phase_merge_overrides_spec.1 (parseMarkdown ""),
   (phase_merge_overrides_spec.2.2.2.1 (parseQuestionBlock 1 "1. x" "XYZ")
      { question_text := some "ny text" }).1.2 "ny text" rfl,
   (phase_merge_overrides_spec.2.2.2.1 (parseQuestionBlock 1 "1. x" "XYZ")
      { question_text := some "ny text" }).2.1.1 rfl,
   phase_merge_overrides_spec.2.2.2.2.2 (parseMarkdown "1. x") [] "7"
      { reviewed := true } (by decide)⟩

/-! ## `clean_option_text` (C7) -/

/-- Trailing-whitespace strip (the second half of `str.strip()`). -/
def stripTrail (l : List Char) : List Char :=
  (l.reverse.dropWhile isPySpace).reverse

theorem pyStripList_eq (l : List Char) :
    pyStripList l = stripTrail (l.dropWhile isPySpace) := rfl

theorem stripTrail_append_last {c : Char} (hc : isPySpace c = false) (l t : List Char) :
    stripTrail (l ++ c :: t) = l ++ c :: stripTrail t := by
  unfold stripTrail
  have h1 : (l ++ c :: t).reverse = t.reverse ++ ([c] ++ l.reverse) := by simp
  rw [h1, List.dropWhile_append]
  have hdrop : List.dropWhile isPySpace ([c] ++ l.reverse) = c :: l.reverse := by
    simp [List.dropWhile_cons, hc]
  by_cases he : (List.dropWhile isPySpace t.reverse).isEmpty
  · rw [if_pos he, hdrop]
    have ht : List.dropWhile isPySpace t.reverse = [] := by
      simpa [List.isEmpty_iff] using he
    rw [ht]
    simp
  · rw [if_neg he]
    simp

theorem pyStripList_cons {a : Char} (ha : isPySpace a = false) (l : List Char) :
    pyStripList (a :: l) = a :: stripTrail l := by
  rw [pyStripList_eq]
  rw [show List.dropWhile isPySpace (a :: l) = a :: l by simp [List.dropWhile_cons, ha]]
  simpa using stripTrail_append_last ha [] l

theorem stripTrail_of_no_ws {l : List Char} (h : ∀ c ∈ l, isPySpace c = false) :
    stripTrail l = l := by
  unfold stripTrail
  have hd : List.dropWhile isPySpace l.reverse = l.reverse := by
    cases hr : l.reverse with
    | nil => rfl
    | cons x xs =>
      have hx : x ∈ l := by
        rw [← List.mem_reverse, hr]
        exact List.mem_cons_self x xs
      simp [List.dropWhile_cons, h x hx]
  rw [hd, List.reverse_reverse]

theorem pyStripList_cons_space (l : List Char) :
    pyStripList (' ' :: l) = pyStripList l := by
  rw [pyStripList_eq, pyStripList_eq]
  have h : List.dropWhile isPySpace (' ' :: l) = List.dropWhile isPySpace l := by
    simp [List.dropWhile_cons, show isPySpace ' ' = true from rfl]
  rw [h]

theorem pyStripList_append_space (l : List Char) :
    pyStripList (l ++ [' ']) = pyStripList l := by
  rw [pyStripList_eq, pyStripList_eq, List.dropWhile_append]
  by_cases he : (List.dropWhile isPySpace l).isEmpty
  · rw [if_pos he]
    have hl : List.dropWhile isPySpace l = [] := by
      simpa [List.isEmpty_iff] using he
    rw [hl]
    rfl
  · rw [if_neg he]
    unfold stripTrail
    rw [List.reverse_append]
    simp [List.dropWhile_cons, show isPySpace ' ' = true from rfl]

/-- A literal matches its own prefix. -/
theorem matchLit_self (p r : List Char) : matchLit p (p ++ r) = some r := by
  induction p with
  | nil => rfl
  | cons x xs ih => simp [matchLit, ih]

/-- A successful literal match consumes exactly the literal. -/
theorem matchLit_length {p l r : List Char} (h : matchLit p l = some r) :
    r.length + p.length = l.length := by
  induction p generalizing l with
  | nil =>
    simp only [matchLit, Option.some.injEq] at h
    subst h
    simp
  | cons x xs ih =>
    cases l with
    | nil => simp [matchLit] at h
    | cons c cs =>
      unfold matchLit at h
      split at h
      · have := ih h
        simp only [List.length_cons]
        omega
      · simp at h

/-- A literal starting with `<` cannot match at a non-`<` character. -/
theorem matchLit_sup_none {c : Char} (hc : ¬(c = '<')) (cs rest : List Char) :
    matchLit ('<' :: rest) (c :: cs) = none := by
  simp [matchLit, hc]

/-- `convertSup` is fuel-insensitive once the fuel covers the text. -/
theorem convertSup_congr : ∀ (f1 : Nat) (l : List Char) (f2 : Nat),
    l.length ≤ f1 → l.length ≤ f2 → convertSup f1 l = convertSup f2 l := by
  intro f1
  induction f1 with
  | zero =>
    intro l f2 h1 _
    rw [List.length_eq_zero.mp (Nat.le_zero.mp h1)]
    cases f2 <;> rfl
  | succ f1 ih =>
    intro l f2 h1 h2
    cases l with
    | nil => cases f2 <;> rfl
    | cons c cs =>
      cases f2 with
      | zero => simp at h2
      | succ f2 =>
        have hcs1 : cs.length ≤ f1 := by
          simp only [List.length_cons] at h1
          omega
        have hcs2 : cs.length ≤ f2 := by
          simp only [List.length_cons] at h2
          omega
        show convertSup (f1 + 1) (c :: cs) = convertSup (f2 + 1) (c :: cs)
        unfold convertSup
        cases hm : matchLit ['<', 's', 'u', 'p', '>'] (c :: cs) with
        | none => simp only [ih cs f2 hcs1 hcs2]
        | some rest =>
          dsimp only
          have hrest : rest.length + 5 = cs.length + 1 := by
            simpa using matchLit_length hm
          cases hcont : rest.takeWhile (fun x => x ≠ '<') with
          | nil => simp only [ih cs f2 hcs1 hcs2]
          | cons y ys =>
            cases hcl : matchLit ['<', '/', 's', 'u', 'p', '>']
                (rest.drop (y :: ys).length) with
            | none => simp only [ih cs f2 hcs1 hcs2]
            | some rest2 =>
              have hr2 : rest2.length + 6 = (rest.drop (y :: ys).length).length := by
                simpa using matchLit_length hcl
              have hdl : (rest.drop (y :: ys).length).length = rest.length - (y :: ys).length := by
                simp [List.length_drop]
              have hb1 : rest2.length ≤ f1 := by omega
              have hb2 : rest2.length ≤ f2 := by omega
              simp only [ih rest2 f2 hb1 hb2]

/-- Text without `<` passes through `convertSup` unchanged. -/
theorem convertSup_no_tag : ∀ (f : Nat) (l : List Char), ('<' : Char) ∉ l →
    l.length ≤ f → convertSup f l = l := by
  intro f
  induction f with
  | zero =>
    intro l _ h1
    rw [List.length_eq_zero.mp (Nat.le_zero.mp h1)]
    rfl
  | succ f ih =>
    intro l h hlen
    cases l with
    | nil => rfl
    | cons c cs =>
      have hc : ¬(c = '<') := fun e => h (e ▸ List.mem_cons_self c cs)
      unfold convertSup
      rw [matchLit_sup_none hc]
      have : convertSup f cs = cs :=
        ih cs (fun hm => h (List.mem_cons_of_mem c hm))
          (by simp only [List.length_cons] at hlen; omega)
      rw [this]

/-- `takeWhile` over a block that fully satisfies the predicate, stopped by
the next character. -/
theorem takeWhile_all_append {p : Char → Bool} {x : List Char} {y : Char}
    (hx : ∀ c ∈ x, p c = true) (hy : p y = false) (r : List Char) :
    (x ++ y :: r).takeWhile p = x := by
  induction x with
  | nil => simp [List.takeWhile_cons, hy]
  | cons a xs ih =>
    have h1 := hx a (List.mem_cons_self a xs)
    have h2 := ih (fun c hc => hx c (List.mem_cons_of_mem a hc))
    simp only [List.cons_append, List.takeWhile_cons, h1, h2, if_true]

/-- The `re.sub` behaviour of `convertSup`: every well-formed
`<sup>x</sup>` wrapper is rewritten to `^x`, scanning left to right. -/
theorem convertSup_replaces : ∀ (pre : List Char), ('<' : Char) ∉ pre →
    ∀ (x post : List Char), ('<' : Char) ∉ x → x ≠ [] →
    ∀ f, (pre ++ ['<', 's', 'u', 'p', '>'] ++ x ++ ['<', '/', 's', 'u', 'p', '>'] ++ post).length ≤ f →
    convertSup f (pre ++ ['<', 's', 'u', 'p', '>'] ++ x ++ ['<', '/', 's', 'u', 'p', '>'] ++ post) =
      pre ++ '^' :: x ++ convertSup post.length post := by
  intro pre
  induction pre with
  | nil =>
    intro _ x post hx hne f hf
    cases x with
    | nil => exact absurd rfl hne
    | cons y ys =>
      cases f with
      | zero =>
        exfalso
        simp [List.length_append] at hf
      | succ f =>
        have hfuel : post.length ≤ f := by
          simp only [List.length_append, List.length_cons, List.nil_append,
            List.length_nil] at hf
          omega
        have hgoal : (([] : List Char) ++ ['<', 's', 'u', 'p', '>'] ++ (y :: ys) ++
            ['<', '/', 's', 'u', 'p', '>'] ++ post) =
            '<' :: 's' :: 'u' :: 'p' :: '>' ::
              ((y :: ys) ++ '<' :: '/' :: 's' :: 'u' :: 'p' :: '>' :: post) := by
          simp
        rw [hgoal]
        have hm : matchLit ['<', 's', 'u', 'p', '>']
            ('<' :: 's' :: 'u' :: 'p' :: '>' ::
              ((y :: ys) ++ '<' :: '/' :: 's' :: 'u' :: 'p' :: '>' :: post)) =
            some ((y :: ys) ++ '<' :: '/' :: 's' :: 'u' :: 'p' :: '>' :: post) :=
          matchLit_self ['<', 's', 'u', 'p', '>'] _
        have hcontent : ((y :: ys) ++ '<' :: '/' :: 's' :: 'u' :: 'p' :: '>' :: post).takeWhile
            (fun c => c ≠ '<') = y :: ys :=
          takeWhile_all_append (fun c hc => by
            simp only [decide_eq_true_eq]
            intro e
            exact hx (e ▸ hc)) (by decide) _
        have hdrop : ((y :: ys) ++ '<' :: '/' :: 's' :: 'u' :: 'p' :: '>' :: post).drop
            (y :: ys).length = '<' :: '/' :: 's' :: 'u' :: 'p' :: '>' :: post :=
          List.drop_left _ _
        have hcl : matchLit ['<', '/', 's', 'u', 'p', '>']
            ('<' :: '/' :: 's' :: 'u' :: 'p' :: '>' :: post) = some post :=
          matchLit_self ['<', '/', 's', 'u', 'p', '>'] _
        conv_lhs => unfold convertSup
        rw [hm]
        dsimp only
        rw [hcontent, hdrop, hcl]
        dsimp only
        rw [convertSup_congr f post post.length hfuel (Nat.le_refl _)]
        simp
  | cons a pre ih =>
    intro hpre x post hx hne f hf
    have ha : ¬(a = '<') := fun e => hpre (e ▸ List.mem_cons_self a pre)
    have hl : ((a :: pre) ++ ['<', 's', 'u', 'p', '>'] ++ x ++ ['<', '/', 's', 'u', 'p', '>'] ++ post) =
        a :: (pre ++ ['<', 's', 'u', 'p', '>'] ++ x ++ ['<', '/', 's', 'u', 'p', '>'] ++ post) := by
      simp
    cases f with
    | zero =>
      exfalso
      simp [List.length_append] at hf
    | succ f =>
      have hb : (pre ++ ['<', 's', 'u', 'p', '>'] ++ x ++ ['<', '/', 's', 'u', 'p', '>'] ++ post).length ≤ f := by
        rw [hl] at hf
        simp only [List.length_cons] at hf
        omega
      rw [hl]
      conv_lhs => unfold convertSup
      rw [matchLit_sup_none ha]
      dsimp only
      rw [ih (fun hm => hpre (List.mem_cons_of_mem a hm)) x post hx hne f hb]
      simp

/-- `stripListMarker` leaves text that does not start with a marker alone. -/
theorem stripListMarker_no_marker {c : Char} (h1 : c ≠ '-') (h2 : c ≠ '*')
    (l : List Char) : stripListMarker (c :: l) = c :: l := by
  cases l with
  | nil => rfl
  | cons c2 rest =>
    unfold stripListMarker
    dsimp only
    rw [if_neg]
    simp [h1, h2]

/-- A digit is not whitespace. -/
theorem isPyDigit_not_space {c : Char} (h : isPyDigit c = true) :
    isPySpace c = false := by
  have hne : ∀ s : Char, s ∈ ([' ', '\t', '\n', '\r', '\x0b', '\x0c'] : List Char) →
      c ≠ s := by
    intro s hs
    fin_cases hs <;> (intro e; subst e; exact absurd h (by decide))
  unfold isPySpace
  simp [hne ' ' (by decide), hne '\t' (by decide), hne '\n' (by decide),
    hne '\r' (by decide), hne '\x0b' (by decide), hne '\x0c' (by decide)]

/-- C7: `clean_option_text` trims surrounding whitespace, strips a leading
list-marker dash or asterisk only when it is followed by whitespace,
preserves a leading minus sign directly before a digit ("- 6" becomes "6"
but "-6" stays "-6"), and converts every `<sup>x</sup>` wrapper into the
caret form `^x`. -/
theorem clean_option_text_spec :
    (∀ l : List Char, cleanOptionTextList (' ' :: l) = cleanOptionTextList l ∧
       cleanOptionTextList (l ++ [' ']) = cleanOptionTextList l) ∧
    (∀ (m c : Char) (t : List Char), (m = '-' ∨ m = '*') → isPySpace c = false →
       c ≠ '-' → c ≠ '*' →
       cleanOptionTextList (m :: ' ' :: c :: t) = cleanOptionTextList (c :: t)) ∧
    (∀ ds : List Char, ds ≠ [] → (∀ c ∈ ds, isPyDigit c = true) →
       cleanOptionTextList ('-' :: ds) = '-' :: ds) ∧
    (∀ pre x post : List Char, ('<' : Char) ∉ pre → ('<' : Char) ∉ x → x ≠ [] →
       ∀ f, (pre ++ ['<', 's', 'u', 'p', '>'] ++ x ++ ['<', '/', 's', 'u', 'p', '>'] ++ post).length ≤ f →
       convertSup f (pre ++ ['<', 's', 'u', 'p', '>'] ++ x ++ ['<', '/', 's', 'u', 'p', '>'] ++ post) =
         pre ++ '^' :: x ++ convertSup post.length post) ∧
    (cleanOptionText "- 6" = "6" ∧ cleanOptionText "-6" = "-6" ∧
     cleanOptionText "* x " = "x" ∧ cleanOptionText " a<sup>23</sup>b " = "a^23b") := by
  refine ⟨?_, ?_, ?_, fun pre x post hpre hx hne f hf =>
      convertSup_replaces pre hpre x post hx hne f hf,
    by decide, by decide, by decide, by decide⟩
  · intro l
    constructor
    · unfold cleanOptionTextList
      rw [pyStripList_cons_space]
    · unfold cleanOptionTextList
      rw [pyStripList_append_space]
  · intro m c t hm hc hc1 hc2
    have hmws : isPySpace m = false := by rcases hm with hm | hm <;> subst hm <;> decide
    unfold cleanOptionTextList
    dsimp only
    rw [pyStripList_cons hmws, pyStripList_cons hc]
    have hst : stripTrail (' ' :: c :: t) = ' ' :: c :: stripTrail t := by
      simpa using stripTrail_append_last hc [' '] t
    rw [hst]
    have hmarker : stripListMarker (m :: ' ' :: c :: stripTrail t) =
        c :: stripTrail t := by
      unfold stripListMarker
      dsimp only
      rw [if_pos]
      · simp [List.dropWhile_cons, show isPySpace ' ' = true from rfl, hc]
      · rcases hm with hm | hm <;> subst hm <;>
          simp [show isPySpace ' ' = true from rfl]
    rw [hmarker, stripListMarker_no_marker hc1 hc2]
  · intro ds hne hds
    have hdsws : ∀ c ∈ ds, isPySpace c = false := fun c hc => isPyDigit_not_space (hds c hc)
    unfold cleanOptionTextList
    dsimp only
    rw [pyStripList_cons (by decide), stripTrail_of_no_ws hdsws]
    have hmarker : stripListMarker ('-' :: ds) = '-' :: ds := by
      cases ds with
      | nil => exact absurd rfl hne
      | cons d ds' =>
        unfold stripListMarker
        dsimp only
        rw [if_neg (by simp [isPyDigit_not_space (hds d (List.mem_cons_self d ds'))])]
    rw [hmarker]
    apply convertSup_no_tag
    · intro hmem
      rcases List.mem_cons.mp hmem with he | he
      · exact absurd he (by decide)
      · exact absurd (hds '<' he) (by decide)
    · exact Nat.le_refl _

/-- Witness for C7 at concrete inputs. -/
theorem clean_option_text_spec_witness :
    cleanOptionTextList (' ' :: "ab".toList) = cleanOptionTextList "ab".toList ∧
    cleanOptionTextList ('-' :: ['7']) = '-' :: ['7'] ∧
    cleanOptionTextList ('-' :: ' ' :: 'x' :: []) = cleanOptionTextList ('x' :: []) ∧
    convertSup 13 (['<', 's', 'u', 'p', '>'] ++ ['2'] ++ ['<', '/', 's', 'u', 'p', '>'] ++ []) =
      '^' :: ['2'] ++ convertSup 0 [] :=
  ⟨(clean_option_text_spec.1 "ab".toList).1,
   clean_option_text_spec.2.2.1 ['7'] (by decide) (by decide),
   clean_option_text_spec.2.1 '-' 'x' [] (Or.inl rfl) (by decide) (by decide) (by decide),
   by
     have h := clean_option_text_spec.2.2.2.1 [] ['2'] []
       (by decide) (by decide) (by decide) 13 (by decide)
     simpa using h⟩

/-! ## The option-letter class (C10) -/

/-- Strategy 1 only captures letters of `OPTION_LETTER_CHARS`. -/
theorem tryListOption_class {st : Bool} {l : List Char}
    {r : (Char × String) × List Char} (h : tryListOption st l = some r) :
    isOptionLetterChar r.1.1 = true := by
  unfold tryListOption at h
  simp only [bind, Option.bind, guard, pure] at h
  split at h
  · simp at h
  beta_reduce at h
  split at h
  · simp at h
  beta_reduce at h
  split at h
  · simp at h
  rename_i aL hL
  beta_reduce at h
  split at h
  · simp at h
  simp only [Option.some.injEq] at h
  rw [← h]
  exact takeLetter_class hL

/-- Strategy 2 only captures letters of `OPTION_LETTER_CHARS`. -/
theorem tryBareOption_class {st : Bool} {l : List Char}
    {r : (Char × String) × List Char} (h : tryBareOption st l = some r) :
    isOptionLetterChar r.1.1 = true := by
  unfold tryBareOption at h
  simp only [bind, Option.bind, guard, pure] at h
  split at h
  · simp at h
  beta_reduce at h
  split at h
  · simp at h
  rename_i aL hL
  beta_reduce at h
  split at h
  · simp at h
  simp only [Option.some.injEq] at h
  rw [← h]
  exact takeLetter_class hL

/-- The body of strategy 3 only captures letters of `OPTION_LETTER_CHARS`. -/
theorem tryMathBlockBody_class {l : List Char}
    {r : (Char × String) × List Char} (h : tryMathBlockBody l = some r) :
    isOptionLetterChar r.1.1 = true := by
  unfold tryMathBlockBody at h
  simp only [bind, Option.bind, guard, pure] at h
  split at h
  · simp at h
  rename_i aL hL
  beta_reduce at h
  split at h
  · simp at h
  beta_reduce at h
  split at h
  · simp at h
  beta_reduce at h
  split at h
  · simp at h
  simp only [Option.some.injEq] at h
  rw [← h]
  exact takeLetter_class hL

/-- Strategy 3 only captures letters of `OPTION_LETTER_CHARS`. -/
theorem tryMathBlock_class {st : Bool} {l : List Char}
    {r : (Char × String) × List Char} (h : tryMathBlock st l = some r) :
    isOptionLetterChar r.1.1 = true := by
  unfold tryMathBlock at h
  split at h
  · exact tryMathBlockBody_class h
  · split at h
    · exact tryMathBlockBody_class h
    · simp at h

/-- Strategy 4 only captures letters of `OPTION_LETTER_CHARS`. -/
theorem tryInlineMath_class {st : Bool} {l : List Char}
    {r : (Char × String) × List Char} (h : tryInlineMath st l = some r) :
    isOptionLetterChar r.1.1 = true := by
  unfold tryInlineMath at h
  simp only [bind, Option.bind, guard, pure] at h
  split at h
  · simp at h
  beta_reduce at h
  split at h
  · simp at h
  rename_i aL hL
  beta_reduce at h
  split at h
  · simp at h
  beta_reduce at h
  split at h
  · simp at h
  beta_reduce at h
  split at h
  · simp at h
  beta_reduce at h
  split at h
  · simp at h
  beta_reduce at h
  split at h
  · simp at h
  simp only [Option.some.injEq] at h
  rw [← h]
  exact takeLetter_class hL

/-- The body of strategy 5 only captures letters of `OPTION_LETTER_CHARS`. -/
theorem tryImageOptionBody_class {l : List Char}
    {r : (Char × String) × List Char} (h : tryImageOptionBody l = some r) :
    isOptionLetterChar r.1.1 = true := by
  unfold tryImageOptionBody at h
  simp only [bind, Option.bind, guard, pure] at h
  split at h
  · simp at h
  rename_i aL hL
  beta_reduce at h
  split at h
  · simp at h
  beta_reduce at h
  split at h
  · simp at h
  beta_reduce at h
  split at h
  · simp at h
  beta_reduce at h
  split at h
  · simp at h
  beta_reduce at h
  split at h
  · simp at h
  simp only [Option.some.injEq] at h
  rw [← h]
  exact takeLetter_class hL

/-- Strategy 5 only captures letters of `OPTION_LETTER_CHARS`. -/
theorem tryImageOption_class {st : Bool} {l : List Char}
    {r : (Char × String) × List Char} (h : tryImageOption st l = some r) :
    isOptionLetterChar r.1.1 = true := by
  unfold tryImageOption at h
  split at h
  · exact tryImageOptionBody_class h
  · split at h
    · exact tryImageOptionBody_class h
    · simp at h

/-- Strategy 6 only captures letters of `OPTION_LETTER_CHARS`. -/
theorem trySupOption_class {st : Bool} {l : List Char}
    {r : (Char × String) × List Char} (h : trySupOption st l = some r) :
    isOptionLetterChar r.1.1 = true := by
  unfold trySupOption at h
  simp only [bind, Option.bind, guard, pure] at h
  split at h
  · simp at h
  beta_reduce at h
  split at h
  · simp at h
  rename_i aL hL
  beta_reduce at h
  split at h
  · simp at h
  beta_reduce at h
  split at h
  · simp at h
  beta_reduce at h
  split at h
  · simp at h
  beta_reduce at h
  split at h
  · simp at h
  beta_reduce at h
  split at h
  · simp at h
  simp only [Option.some.injEq] at h
  rw [← h]
  exact takeLetter_class hL

/-- C10: no Option is ever extracted from a lowercase option label.  The
letter class shared by all six strategies contains only uppercase Latin A–E,
uppercase Cyrillic АБВСДЕ and uppercase Greek ΑΒΕ (each normalizing to a
canonical letter); lowercase Latin `a` and lowercase Cyrillic `а` are outside
the class, even though `normalize_letter` would map lowercase Cyrillic
а/с/е to canonical letters; a block whose labels are lowercase yields no
options. -/
theorem lowercase_labels_never_extracted :
    (∀ c : Char, isOptionLetterChar c = true →
      normalizeLetter c ∈ (['A', 'B', 'C', 'D', 'E'] : List Char)) ∧
    (isOptionLetterChar 'a' = false ∧ isOptionLetterChar 'а' = false) ∧
    (normalizeLetter 'а' = 'A' ∧ normalizeLetter 'с' = 'C' ∧ normalizeLetter 'е' = 'E') ∧
    (∀ (st : Bool) (l : List Char) (r : (Char × String) × List Char),
      tryListOption st l = some r → isOptionLetterChar r.1.1 = true) ∧
    (∀ (st : Bool) (l : List Char) (r : (Char × String) × List Char),
      tryBareOption st l = some r → isOptionLetterChar r.1.1 = true) ∧
    (∀ (st : Bool) (l : List Char) (r : (Char × String) × List Char),
      tryMathBlock st l = some r → isOptionLetterChar r.1.1 = true) ∧
    (∀ (st : Bool) (l : List Char) (r : (Char × String) × List Char),
      tryInlineMath st l = some r → isOptionLetterChar r.1.1 = true) ∧
    (∀ (st : Bool) (l : List Char) (r : (Char × String) × List Char),
      tryImageOption st l = some r → isOptionLetterChar r.1.1 = true) ∧
    (∀ (st : Bool) (l : List Char) (r : (Char × String) × List Char),
      trySupOption st l = some r → isOptionLetterChar r.1.1 = true) ∧
    (parseOptionsFromBlock "1. q\na two\nа three\nс four" "XYZ" = []) := by
  refine ⟨?_, ⟨by decide, by decide⟩, ⟨by decide, by decide, by decide⟩,
    fun _ _ _ h => tryListOption_class h,
    fun _ _ _ h => tryBareOption_class h,
    fun _ _ _ h => tryMathBlock_class h,
    fun _ _ _ h => tryInlineMath_class h,
    fun _ _ _ h => tryImageOption_class h,
    fun _ _ _ h => trySupOption_class h,
    by decide⟩
  intro c hc
  unfold isOptionLetterChar at hc
  simp only [Bool.or_eq_true, Bool.and_eq_true, decide_eq_true_eq] at hc
  rcases hc with ((((((((⟨h1, h2⟩ | h) | h) | h) | h) | h) | h) | h) | h) | h
  · rcases char_between_A_E h1 h2 with h | h | h | h | h <;> subst h <;> decide
  all_goals subst h
  all_goals decide

/-- Witness for C10: strategy 1 matching a concrete line yields a class
letter, and the class lemma for pass-through characters. -/
theorem lowercase_labels_never_extracted_witness :
    isOptionLetterChar 'A' = true ∧ normalizeLetter 'Β' ∈ (['A', 'B', 'C', 'D', 'E'] : List Char) :=
  ⟨lowercase_labels_never_extracted.2.2.2.1 true "- A x".toList (('A', "x"), [])
     (by decide),
   lowercase_labels_never_extracted.1 'Β' (by decide)⟩

end Hogskoleprovet
